import Mathlib

/-!
# Blocked 2D correlation kernel (`po2/conv-all.c`)

A shallow embedding of the loop nests of `main` in `po2/conv-all.c`:

* the fill of `A` (lines 29-33) and the sizes `N`, `W`, `M` (lines 4-6),
* the baseline computation of `Corig` (lines 40-50),
* the tiled computation of `C` (lines 56-75),
* the correctness test that compares `Corig` and `C` (lines 81-98),

of the iteration loop of `main` in `sum_openmp.c` (lines 98-129), in the
namespace `SumOpenmp`, and of `print_elapsed` (`sum_openmp.c`, `sum_mpi.c`,
`sum_mpi2.c`), in the namespace `Elapsed`.

Conventions of the embedding.

* The arrays `A`, `B`, `C`, `Corig` are total functions of two indices with
  values in `ℚ`, and an array has no extent of its own.  The extents of line
  15 enter through `readCell` and `writeCell`, in `baselineChecked` and
  `tiledChecked`, where an index outside its extent gives `none`.
* Arithmetic on `float` comes in two readings.  `baseline`, `tiled` and
  `mismatch` compute over `ℚ` without rounding: this is the reading of the
  statements that take arithmetic as exact, and it is what the program
  computes on values, such as `0` and `1`, whose sums, products and
  differences are values of `float`.  `roundFloat` rounds a result to
  `float`; `subFloat`, `mismatchF` and `oracleF` are line 85 and the
  correctness test with the differences rounded.
* The `#define`d sizes `N` and `W` are parameters.
* The `int` loop counters and tile sizes are natural numbers.  Every counter
  of the program starts at `0` or at another counter and only grows, and the
  two subtractions on `int`, in `l+tileRow-1` and `k+tileColumn-1`, give a
  bound for a counter that starts at `l` (at `k`), so that truncated
  subtraction selects the same iterations as the subtraction of `int`.
* `#pragma omp parallel for` (line 56) comes in two readings.  `tileLoops`,
  `tiled` and `tiledChecked` are the loop run by one thread, one iteration
  after another.  In the namespace `Par` the loop is run by a team of
  threads that share the counters `l`, `ll`, `kk`, `i`, `j`: `Par.step` is
  one step of one thread and `Par.run` a run under a schedule.
* The parallel region of `sum_openmp.c`, whose variables are local to the
  region, is read as its threads taken in turn.
* The `long` of `print_elapsed` has 64 bits; a result outside its range is
  wrapped into it (`Elapsed.wrapLong`).
-/

namespace ConvAll

/-- A two-dimensional array of the program, `X[r][c]` being `X r c`. -/
abbrev Grid := Nat → Nat → ℚ

/-- The assignment `X[r][c] = v`. -/
def setCell (X : Grid) (r c : Nat) (v : ℚ) : Grid :=
  fun a b => if a = r ∧ b = c then v else X a b

/-- The loop `for (x = lo; x < hi; x++) body`, for a body that neither leaves
the loop nor assigns `x` or `hi`: the body runs at `lo, lo+1, ..., hi-1`. -/
def forUp {σ : Type} (lo hi : Nat) (body : Nat → σ → σ) (s : σ) : σ :=
  (List.range' lo (hi - lo)).foldl (fun acc x => body x acc) s

/-- The loop `for (x = x0; x < hi; x += step) body`.  A step of `0` never
leaves the loop, so the loop is given `fuel`: every evaluation of the loop
test uses one unit, and `none` is a loop that was still running when the
fuel ran out. -/
def forStep {σ : Type} (hi step : Nat) (body : Nat → σ → Option σ) :
    Nat → Nat → σ → Option σ
  | 0, _, _ => none
  | fuel + 1, x, s =>
      if x < hi then (body x s).bind (forStep hi step body fuel (x + step))
      else some s

/-- Modelled from the spec: `min` is called at lines 61 and 63 of
`conv-all.c` and defined nowhere in the file; the spec reads the tile bound
as a minimum ("tile upper bound = min(tile_start + tile_size − 1, N−1)"), so
it is the smaller of its two arguments. -/
def cMin (a b : Nat) : Nat := if a < b then a else b

/-- Lines 44-48 with the assignment of line 43 before them: the body of the
two outer loops of the baseline computation, for the cell `Corig[k][l]`. -/
def baselineCell (W : Nat) (A B : Grid) (k l : Nat) (Corig : Grid) : Grid :=
  forUp 0 W (fun j Corig =>
    forUp 0 W (fun i Corig =>
      setCell Corig k l (Corig k l + A (k + i) (l + j) * B i j)) Corig)
    (setCell Corig k l 0)

/-- Lines 41-50: the baseline computation, started on the array `Corig`. -/
def baseline (N W : Nat) (A B : Grid) (Corig : Grid) : Grid :=
  forUp 0 N (fun l Corig =>
    forUp 0 N (fun k Corig => baselineCell W A B k l Corig) Corig) Corig

/-- Lines 65-71: the two innermost loops of the tiled computation, for the
cell `C[kk][ll]`.  Nothing is assigned to `C[kk][ll]` before them.  The sums
and products are those of `ℚ`, without the rounding of `float`. -/
def tiledCell (W : Nat) (A B : Grid) (kk ll : Nat) (C : Grid) : Grid :=
  forUp 0 W (fun i C =>
    forUp 0 W (fun j C =>
      setCell C kk ll (C kk ll + A (kk + i) (ll + j) * B i j)) C) C

/-- Lines 57-64 and 72-75: the four tile loops, around a body `cell kk ll`
that stands for lines 65-71, as one thread runs them, one iteration of the
loop of line 57 after another.  (`Par.run` is the loop with its threads.) -/
def tileLoops {σ : Type} (fuel N tileRow tileColumn : Nat)
    (cell : Nat → Nat → σ → σ) (s : σ) : Option σ :=
  forStep N tileColumn (fun k s =>
    forStep N tileRow (fun l s =>
      some (forUp l (cMin (l + tileRow - 1) N) (fun ll s =>
        forUp k (cMin (k + tileColumn - 1) N) (fun kk s =>
          cell kk ll s) s) s)) fuel 0 s) fuel 0 s

/-- Lines 57-75: the tiled computation, started on the array `C`. -/
def tiled (fuel N W tileRow tileColumn : Nat) (A B : Grid) (C : Grid) :
    Option Grid :=
  tileLoops fuel N tileRow tileColumn (tiledCell W A B) C

/-- The cells `(kk, ll)` for which the tile loops run lines 65-71, in the
order in which they do: the tile loops with a body that records its cell. -/
def tiledVisits (fuel N tileRow tileColumn : Nat) : Option (List (Nat × Nat)) :=
  tileLoops fuel N tileRow tileColumn (fun kk ll t => t ++ [(kk, ll)]) []

/-- The sum the spec gives for the cell `(k, l)` of an Output:
`Σ_{i<W} Σ_{j<W} Field[k+i][l+j] · Template[i][j]`. -/
def corr (W : Nat) (A B : Grid) (k l : Nat) : ℚ :=
  ∑ i in Finset.range W, ∑ j in Finset.range W, A (k + i) (l + j) * B i j

/-- The test of line 85, `(Corig[i][j] - C[i][j] > 0.5) || (C[i][j] - Corig[i][j] > 0.5)`,
on the two values, with the differences of `ℚ`: it is the test of the program
where the differences are values of `float`, as they are for the values `0`
and `1`.  (`mismatchF` is the test with the differences rounded.) -/
def mismatch (x y : ℚ) : Bool :=
  decide (x - y > 1 / 2) || decide (y - x > 1 / 2)

/-- One line of the program's output after the timing line. -/
inductive Line where
  /-- The line `TEST FAILING at C[i][j] = x, y`. -/
  | failing (i j : Nat) (x y : ℚ)
  /-- The line `TEST FAILED`. -/
  | failed
  /-- The line `TEST PASSED`. -/
  | passed
  deriving DecidableEq

/-- The variables of the correctness test: the `int test` and the lines
printed so far. -/
structure OracleState where
  test : Int
  out : List Line
  deriving DecidableEq

/-- Lines 84-91: the loop over `j` for the row `i`, with `n` iterations left
before `j` reaches `N`.  Both `break`s end this loop and nothing else. -/
def oracleRow (Corig C : Grid) (i : Nat) : Nat → Nat → OracleState → OracleState
  | 0, _, s => s
  | n + 1, j, s =>
      if mismatch (Corig i j) (C i j) then
        { test := 0, out := s.out ++ [Line.failing i j (Corig i j) (C i j)] }
      else if s.test = 0 then s
      else oracleRow Corig C i n (j + 1) s

/-- Lines 82-92: `test = 1` and the scan of the rows. -/
def oracleScan (N : Nat) (Corig C : Grid) : OracleState :=
  forUp 0 N (fun i s => oracleRow Corig C i N 0 s) { test := 1, out := [] }

/-- Lines 82-98: the lines the correctness test prints. -/
def oracle (N : Nat) (Corig C : Grid) : List Line :=
  let s := oracleScan N Corig C
  s.out ++ [if s.test = 0 then Line.failed else Line.passed]

/-- The constant grid. -/
def constGrid (v : ℚ) : Grid := fun _ _ => v

/-- The values a counter takes in `for (x = x0; x < hi; x += step)` within
`fuel` evaluations of the loop test. -/
def stepList (hi step : Nat) : Nat → Nat → List Nat
  | 0, _ => []
  | fuel + 1, x => if x < hi then x :: stepList hi step fuel (x + step) else []

/-- The cells of the tile at `(k, l)` that lines 61-64 enumerate, in the
order of the two loops. -/
def tileCells (N tileRow tileColumn k l : Nat) : List (Nat × Nat) :=
  (List.range' l (cMin (l + tileRow - 1) N - l)).flatMap (fun ll =>
    (List.range' k (cMin (k + tileColumn - 1) N - k)).map (fun kk => (kk, ll)))

/-- The cells that lines 57-64 enumerate, tile after tile. -/
def visitList (fuel N tileRow tileColumn : Nat) : List (Nat × Nat) :=
  (stepList N tileColumn fuel 0).flatMap (fun k =>
    (stepList N tileRow fuel 0).flatMap (fun l =>
      tileCells N tileRow tileColumn k l))

/-- The lines of line 87 for a list of cells `(i, j)`. -/
def failingLines (Corig C : Grid) (cells : List (Nat × Nat)) : List Line :=
  cells.map (fun p => Line.failing p.1 p.2 (Corig p.1 p.2) (C p.1 p.2))




namespace Config

/-- Line 4: `#define N 4096`. -/
def N : Nat := 4096

/-- Line 5: `#define W 32`. -/
def W : Nat := 32

/-- Line 6: `#define M N+32`.  The text `N+32` stands at each use of `M`
(`A[M][M]`, `i<M`, `j<M`), where it is the sum `N + 32`. -/
def M : Nat := N + 32

end Config

/-- Lines 29-33: the cells `A[i][j]` the two loops assign, in the order in
which they do, for a loop bound `m` (the program's is `M`). -/
def fillCells (m : Nat) : List (Nat × Nat) :=
  forUp 0 m (fun i t => forUp 0 m (fun j t => t ++ [(i, j)]) t) []


/-- The value of `X[r][c]` for an array declared `X[rows][cols]`: `none`
when an index is outside the declaration. -/
def readCell (rows cols : Nat) (X : Grid) (r c : Nat) : Option ℚ :=
  if r < rows ∧ c < cols then some (X r c) else none

/-- The assignment `X[r][c] = v` for an array declared `X[rows][cols]`:
`none` when an index is outside the declaration. -/
def writeCell (rows cols : Nat) (X : Grid) (r c : Nat) (v : ℚ) : Option Grid :=
  if r < rows ∧ c < cols then some (setCell X r c v) else none

/-- The loop `for (x = lo; x < hi; x++) body` for a body that can fail: the
loop fails as soon as its body does. -/
def forUpM {σ : Type} (lo hi : Nat) (body : Nat → σ → Option σ) (s : σ) : Option σ :=
  (List.range' lo (hi - lo)).foldlM (fun acc x => body x acc) s

/-- The statement `X[r][c] += A[r+i][c+j]*B[i][j]` of lines 46 and 69 with
every index checked against the declarations of line 15, `A[M][M]`,
`B[W][W]` and `X[N][N]`. -/
def addProductChecked (N W M : Nat) (A B : Grid) (r c i j : Nat) (X : Grid) :
    Option Grid :=
  (readCell N N X r c).bind (fun x =>
    (readCell M M A (r + i) (c + j)).bind (fun a =>
      (readCell W W B i j).bind (fun b =>
        writeCell N N X r c (x + a * b))))

/-- Lines 41-50 with every index checked: the baseline computation. -/
def baselineChecked (N W M : Nat) (A B : Grid) (Corig : Grid) : Option Grid :=
  forUpM 0 N (fun l Corig =>
    forUpM 0 N (fun k Corig =>
      (writeCell N N Corig k l 0).bind (fun Corig =>
        forUpM 0 W (fun j Corig =>
          forUpM 0 W (fun i Corig =>
            addProductChecked N W M A B k l i j Corig) Corig) Corig)) Corig) Corig

/-- Lines 57-75 with every index checked: the tiled computation as one
thread runs it.  `none` is a failed check or, as in `tiled`, a loop that was
still running when the fuel ran out. -/
def tiledChecked (fuel N W M tileRow tileColumn : Nat) (A B : Grid) (C : Grid) :
    Option Grid :=
  forStep N tileColumn (fun k C =>
    forStep N tileRow (fun l C =>
      forUpM l (cMin (l + tileRow - 1) N) (fun ll C =>
        forUpM k (cMin (k + tileColumn - 1) N) (fun kk C =>
          forUpM 0 W (fun i C =>
            forUpM 0 W (fun j C =>
              addProductChecked N W M A B kk ll i j C) C) C) C) C) fuel 0 C) fuel 0 C


namespace SumOpenmp

/-- The variables of `main` in `sum_openmp.c` that the iteration loop of
lines 98-129 assigns: the array `partial_sums` and `total_sum`, with exact
integers for `long`. -/
structure SumState where
  partial_sums : Nat → Int
  total_sum : Int

/-- Lines 108-116 of `sum_openmp.c`: the `partial_sum` of the thread `tid`
over `data[tid*numints .. (tid+1)*numints)`. -/
def partialSum (numints : Nat) (data : Nat → Int) (tid : Nat) : Int :=
  forUp (tid * numints) ((tid + 1) * numints)
    (fun i partial_sum => partial_sum + data i) 0

/-- Lines 100-120 of `sum_openmp.c`: the parallel region for `T` threads,
the threads `0, ..., T-1` taken one after another; each assigns its own
`partial_sums[tid]` (line 119). -/
def parallelRegion (T numints : Nat) (data : Nat → Int) (partial_sums : Nat → Int) :
    Nat → Int :=
  forUp 0 T (fun tid partial_sums =>
    Function.update partial_sums tid (partialSum numints data tid)) partial_sums

/-- Lines 123-128 of `sum_openmp.c`: `total_sum = 0` and the loop that adds
the `max_threads = T` partial sums. -/
def foldPartialSums (T : Nat) (partial_sums : Nat → Int) : Int :=
  forUp 0 T (fun i total_sum => total_sum + partial_sums i) 0

/-- Lines 99-128 of `sum_openmp.c`: one pass of the iteration loop. -/
def iteration (T numints : Nat) (data : Nat → Int) (s : SumState) : SumState :=
  { partial_sums := parallelRegion T numints data s.partial_sums
    total_sum := foldPartialSums T (parallelRegion T numints data s.partial_sums) }

/-- Lines 53 and 98-129 of `sum_openmp.c`: `total_sum = 0` and the iteration
loop, started on the `partial_sums` that `malloc` returned. -/
def sumLoop (T numints numiterations : Nat) (data : Nat → Int)
    (partial_sums : Nat → Int) : SumState :=
  forUp 0 numiterations (fun _ s => iteration T numints data s)
    { partial_sums := partial_sums, total_sum := 0 }

end SumOpenmp


namespace Elapsed

/-- The value a `long` of 64 bits holds after an operation whose result over
the integers is `x`: `x` itself when it is in `[-2^63, 2^63)`, and otherwise
`x` wrapped into that range, as two's-complement machines leave it. -/
def wrapLong (x : Int) : Int :=
  (x + 9223372036854775808) % 18446744073709551616 - 9223372036854775808

/-- The two fields of `struct timeval` that `print_elapsed` uses; both are
`long`. -/
structure timeval where
  tv_sec : Int
  tv_usec : Int
  deriving DecidableEq

/-- Lines 30-34 of `sum_openmp.c` (65-69 of `sum_mpi.c`, 60-64 of
`sum_mpi2.c`): what `*end` holds after the `if`. -/
def borrow (start end_ : timeval) : timeval :=
  if start.tv_usec > end_.tv_usec then
    { tv_usec := wrapLong (end_.tv_usec + 1000000), tv_sec := wrapLong (end_.tv_sec - 1) }
  else end_

/-- Lines 35-36 of `sum_openmp.c`: the local `elapsed`, computed from `start`
and from `*end` as the `if` left it. -/
def elapsed (start end_ : timeval) : timeval :=
  { tv_usec := wrapLong ((borrow start end_).tv_usec - start.tv_usec)
    tv_sec := wrapLong ((borrow start end_).tv_sec - start.tv_sec) }

/-- The quotient `a / b` of two `long`: it truncates toward zero, and it has
no value (`none`) when `b = 0` and when `a = -2^63`, `b = -1`, whose quotient
is not a `long`. -/
def divLong (a b : Int) : Option Int :=
  if b = 0 then none
  else if a = -9223372036854775808 ∧ b = -1 then none
  else some (Int.tdiv a b)

/-- The function `print_elapsed` of `sum_openmp.c` (lines 26-40), the same
text in `sum_mpi.c` (61-75) and `sum_mpi2.c` (56-70): the number it prints
with `%ld`, the `int niters` converted to `long` for the division. -/
def print_elapsed (start end_ : timeval) (niters : Int) : Option Int :=
  divLong
    (wrapLong (wrapLong ((elapsed start end_).tv_sec * 1000000) + (elapsed start end_).tv_usec))
    niters

end Elapsed


/-- The integer nearest to `q`, and the even one of the two nearest when `q`
is halfway between them. -/
def roundHalfEven (q : ℚ) : ℤ :=
  if q - ⌊q⌋ < 1 / 2 then ⌊q⌋
  else if 1 / 2 < q - ⌊q⌋ then ⌊q⌋ + 1
  else if ⌊q⌋ % 2 = 0 then ⌊q⌋ else ⌊q⌋ + 1

/-- The distance between neighbouring values of `float` (IEEE 754 binary32,
24 significant bits) around `x`: `2^(e-23)` for `2^e ≤ |x| < 2^(e+1)`, and
`2^(-149)` below `2^(-126)`. -/
def ulpFloat (x : ℚ) : ℚ :=
  2 ^ (max (Int.log 2 |x|) (-126) - 23)

/-- The value of `float` that an operation with exact result `x` stores:
the multiple of `ulpFloat x` nearest to `x`, ties to the even multiple.
(A result of `2^128` or more in magnitude, which `float` stores as an
infinity, is outside this embedding.) -/
def roundFloat (x : ℚ) : ℚ :=
  (roundHalfEven (x / ulpFloat x) : ℚ) * ulpFloat x

/-- The difference `x - y` of two `float`, as line 85 computes it before the
comparison with `0.5`: both operands are `float`, so that the difference is
a `float`, rounded to nearest.  (The comparison converts it to `double`,
which changes no value.) -/
def subFloat (x y : ℚ) : ℚ := roundFloat (x - y)

/-- The test of line 85,
`(Corig[i][j] - C[i][j] > 0.5) || (C[i][j] - Corig[i][j] > 0.5)`, on two
`float` values, with the differences computed in `float`. -/
def mismatchF (x y : ℚ) : Bool :=
  decide (subFloat x y > 1 / 2) || decide (subFloat y x > 1 / 2)

/-- Lines 84-91 with the test of line 85 in `float`: the loop over `j` for
the row `i`, with `n` iterations left before `j` reaches `N`.  Both `break`s
end this loop and nothing else. -/
def oracleRowF (Corig C : Grid) (i : Nat) : Nat → Nat → OracleState → OracleState
  | 0, _, s => s
  | n + 1, j, s =>
      if mismatchF (Corig i j) (C i j) then
        { test := 0, out := s.out ++ [Line.failing i j (Corig i j) (C i j)] }
      else if s.test = 0 then s
      else oracleRowF Corig C i n (j + 1) s

/-- Lines 82-92 with the test of line 85 in `float`: `test = 1` and the scan
of the rows. -/
def oracleScanF (N : Nat) (Corig C : Grid) : OracleState :=
  forUp 0 N (fun i s => oracleRowF Corig C i N 0 s) { test := 1, out := [] }

/-- Lines 82-98 with the test of line 85 in `float`: the lines the
correctness test prints. -/
def oracleF (N : Nat) (Corig C : Grid) : List Line :=
  let s := oracleScanF N Corig C
  s.out ++ [if s.test = 0 then Line.failed else Line.passed]

/-- The statement of line 69, `C[kk][ll] += A[kk+i][ll+j]*B[i][j]`, on three
`float` values `c`, `a`, `b`: the product is stored as a `float` and so is
the sum.  (Where the product and the sum are fused into one operation the
sum is rounded once; for the values used below the result is the same.) -/
def accFloat (c a b : ℚ) : ℚ := roundFloat (c + roundFloat (a * b))


namespace Par

/-- The program points of lines 59-74 of `conv-all.c`, the body of the loop
that line 56 annotates with `#pragma omp parallel for`: for each of the five
loops its initialisation, its test and its increment, the statement of line
69 (`acc`), and `next`, where a thread takes the next value of `k` that the
parallel loop gives it. -/
inductive Pc where
  | next
  | lInit | lTest | lInc
  | llInit | llTest | llInc
  | kkInit | kkTest | kkInc
  | iInit | iTest | iInc
  | jInit | jTest | jInc
  | acc
  deriving DecidableEq

/-- What the threads of the parallel loop share: the counters `l`, `ll`,
`kk`, `i`, `j`, declared at lines 16-17 outside the loop and named in no
`private` clause, and the array `C`.  `log` records, for every execution of
line 69, the values `(kk, ll, i, j)` it used. -/
structure Shared where
  l : Nat
  ll : Nat
  kk : Nat
  i : Nat
  j : Nat
  C : Grid
  log : List (Nat × Nat × Nat × Nat)

/-- A thread of the team: its private copy of the loop variable `k`, its
program point, and the values of `k` the parallel loop still has for it. -/
structure Thread where
  k : Nat
  pc : Pc
  rest : List Nat
  deriving DecidableEq

/-- One step of a thread: the initialisation, the test or the increment of
one `for`, or the statement of line 69, on the shared counters as they are at
that moment. -/
def step (N W tileRow tileColumn : Nat) (A B : Grid) (t : Thread) (s : Shared) :
    Thread × Shared :=
  match t.pc with
  | Pc.next =>
      match t.rest with
      | [] => (t, s)
      | k :: rest => ({ k := k, pc := Pc.lInit, rest := rest }, s)
  | Pc.lInit => ({ t with pc := Pc.lTest }, { s with l := 0 })
  | Pc.lTest => ({ t with pc := if s.l < N then Pc.llInit else Pc.next }, s)
  | Pc.lInc => ({ t with pc := Pc.lTest }, { s with l := s.l + tileRow })
  | Pc.llInit => ({ t with pc := Pc.llTest }, { s with ll := s.l })
  | Pc.llTest =>
      ({ t with pc := if s.ll < cMin (s.l + tileRow - 1) N then Pc.kkInit else Pc.lInc }, s)
  | Pc.llInc => ({ t with pc := Pc.llTest }, { s with ll := s.ll + 1 })
  | Pc.kkInit => ({ t with pc := Pc.kkTest }, { s with kk := t.k })
  | Pc.kkTest =>
      ({ t with pc := if s.kk < cMin (t.k + tileColumn - 1) N then Pc.iInit else Pc.llInc }, s)
  | Pc.kkInc => ({ t with pc := Pc.kkTest }, { s with kk := s.kk + 1 })
  | Pc.iInit => ({ t with pc := Pc.iTest }, { s with i := 0 })
  | Pc.iTest => ({ t with pc := if s.i < W then Pc.jInit else Pc.kkInc }, s)
  | Pc.iInc => ({ t with pc := Pc.iTest }, { s with i := s.i + 1 })
  | Pc.jInit => ({ t with pc := Pc.jTest }, { s with j := 0 })
  | Pc.jTest => ({ t with pc := if s.j < W then Pc.acc else Pc.iInc }, s)
  | Pc.jInc => ({ t with pc := Pc.jTest }, { s with j := s.j + 1 })
  | Pc.acc =>
      ({ t with pc := Pc.jInc },
        { s with
          C := setCell s.C s.kk s.ll
            (s.C s.kk s.ll + A (s.kk + s.i) (s.ll + s.j) * B s.i s.j)
          log := s.log ++ [(s.kk, s.ll, s.i, s.j)] })

/-- The team and what it shares. -/
structure World where
  threads : List Thread
  shared : Shared

/-- One step of the thread number `tid` (no step when there is no such
thread). -/
def stepWorld (N W tileRow tileColumn : Nat) (A B : Grid) (w : World) (tid : Nat) :
    World :=
  match w.threads.get? tid with
  | none => w
  | some t =>
      { threads := w.threads.set tid (step N W tileRow tileColumn A B t w.shared).1
        shared := (step N W tileRow tileColumn A B t w.shared).2 }

/-- A run of the team: the threads take their steps in the order the
schedule `sched` lists their numbers. -/
def run (N W tileRow tileColumn : Nat) (A B : Grid) (w : World) (sched : List Nat) :
    World :=
  sched.foldl (stepWorld N W tileRow tileColumn A B) w

/-- The team at the start of the parallel loop: thread number `t` is given
the values of `k` in the `t`-th list of `ks`, the array is `C`, and the five
shared counters hold `c` (every thread assigns a counter before it reads it,
so that `c` does not matter). -/
def start (ks : List (List Nat)) (C : Grid) (c : Nat) : World :=
  { threads := ks.map (fun r => { k := 0, pc := Pc.next, rest := r })
    shared := { l := c, ll := c, kk := c, i := c, j := c, C := C, log := [] } }

/-- The values of `k` of a loop `for (k=0; k<T*c*step; k+=step)` given to `T`
threads in equal blocks: thread `t` has the `c` values
`k = (c*t)*step, ..., (c*t + c - 1)*step`. -/
def blocks (T c step : Nat) : List (List Nat) :=
  (List.range T).map (fun t => (List.range c).map (fun n => (c * t + n) * step))

/-- A thread has left the parallel loop. -/
def finished (t : Thread) : Bool :=
  decide (t.pc = Pc.next) && t.rest.isEmpty

/-- The array that the executions of line 69 recorded in `log` leave, when
they are applied in order to the array `C`. -/
def replay (A B : Grid) (C : Grid) (log : List (Nat × Nat × Nat × Nat)) : Grid :=
  log.foldl (fun C e =>
    setCell C e.1 e.2.1 (C e.1 e.2.1 + A (e.1 + e.2.2.1) (e.2.1 + e.2.2.2) * B e.2.2.1 e.2.2.2))
    C

/-- The schedule of the run of two threads used below: each thread takes the
eleven steps that bring it to line 69, each executes line 69, then the first
thread runs until it has left the loop, then the second. -/
def raceSchedule : List Nat :=
  List.replicate 11 0 ++ List.replicate 11 1 ++ [0, 1] ++
    List.replicate 29 0 ++ List.replicate 21 1

/-- The first 24 steps of `raceSchedule`: each of the threads 0 and 1 takes
the eleven steps that bring it to line 69, and each executes line 69. -/
def raceStart : List Nat :=
  List.replicate 11 0 ++ List.replicate 11 1 ++ [0, 1]

/-- The schedule used for the index of `B`: each of the threads 0 and 1 takes
the eleven steps that bring it to line 69; thread 1 then goes 32 times
through line 69, `j++` and `j<W`; then thread 0 executes line 69. -/
def indexSchedule : List Nat :=
  List.replicate 11 0 ++ List.replicate 11 1 ++ List.replicate 96 1 ++ [0]

end Par


/-! ## Loops -/

theorem forUp_zero_succ {σ : Type} (n : Nat) (body : Nat → σ → σ) (s : σ) :
    forUp 0 (n + 1) body s = body n (forUp 0 n body s) := by
  simp [forUp, List.range'_concat, List.foldl_append]

theorem forUp_zero_zero {σ : Type} (body : Nat → σ → σ) (s : σ) :
    forUp 0 0 body s = s := by
  simp [forUp]

/-- A loop that adds `f x` to one cell adds the sum of the `f x`. -/
theorem forUp_accumulate (n r c : Nat) (f : Nat → ℚ) (X : Grid) :
    forUp 0 n (fun x X => setCell X r c (X r c + f x)) X
      = setCell X r c (X r c + ∑ x in Finset.range n, f x) := by
  induction n with
  | zero =>
      funext a b
      by_cases h : a = r ∧ b = c
      · simp [forUp_zero_zero, setCell, h]
      · simp [forUp_zero_zero, setCell, h]
  | succ n ih =>
      rw [forUp_zero_succ, ih, Finset.sum_range_succ]
      funext a b
      by_cases h : a = r ∧ b = c
      · simp [setCell, h, add_assoc]
      · simp [setCell, h]

theorem baselineCell_eq (W : Nat) (A B : Grid) (k l : Nat) (Corig : Grid) :
    baselineCell W A B k l Corig = setCell Corig k l (corr W A B k l) := by
  unfold baselineCell
  simp only [forUp_accumulate]
  funext a b
  by_cases h : a = k ∧ b = l
  · simp only [setCell, corr, h, and_self, if_true, zero_add]
    rw [Finset.sum_comm]
  · simp [setCell, h]

theorem tiledCell_eq (W : Nat) (A B : Grid) (kk ll : Nat) (C : Grid) :
    tiledCell W A B kk ll C = setCell C kk ll (C kk ll + corr W A B kk ll) := by
  unfold tiledCell
  simp only [forUp_accumulate]
  rfl

/-- A loop over the rows `k < n` that assigns `g k` to the cell `(k, l)`. -/
theorem forUp_assign_column (n l : Nat) (g : Nat → ℚ) (X : Grid) (a b : Nat) :
    forUp 0 n (fun k X => setCell X k l (g k)) X a b
      = if a < n ∧ b = l then g a else X a b := by
  induction n with
  | zero => simp [forUp_zero_zero]
  | succ n ih =>
      rw [forUp_zero_succ]
      simp only [setCell, ih]
      by_cases h1 : a = n
      · subst h1; by_cases h2 : b = l <;> simp [h2]
      · have : a < n + 1 ↔ a < n := by omega
        simp [h1, this]

/-- A loop over the columns `l < n` that assigns `g k l` to the cells
`(k, l)`, `k < m`, of the column. -/
theorem forUp_assign_columns (m n : Nat) (g : Nat → Nat → ℚ) (X : Grid) (a b : Nat) :
    forUp 0 n (fun l X => forUp 0 m (fun k X => setCell X k l (g k l)) X) X a b
      = if a < m ∧ b < n then g a b else X a b := by
  induction n with
  | zero => simp [forUp_zero_zero]
  | succ n ih =>
      rw [forUp_zero_succ, forUp_assign_column, ih]
      by_cases h1 : b = n
      · subst h1; by_cases h2 : a < m <;> simp [h2]
      · have : b < n + 1 ↔ b < n := by omega
        simp [h1, this]

theorem baseline_apply (N W : Nat) (A B : Grid) (Corig : Grid) (a b : Nat) :
    baseline N W A B Corig a b
      = if a < N ∧ b < N then corr W A B a b else Corig a b := by
  unfold baseline
  simp only [baselineCell_eq]
  exact forUp_assign_columns N N (corr W A B) Corig a b

/-! ## The tile loops -/

theorem cMin_eq_min (a b : Nat) : cMin a b = min a b := by
  unfold cMin
  split <;> omega

theorem foldl_flatMap_eq {α β σ : Type} (f : α → List β) (g : σ → β → σ) (xs : List α) (s : σ) :
    (xs.flatMap f).foldl g s = xs.foldl (fun acc x => (f x).foldl g acc) s := by
  induction xs generalizing s with
  | nil => rfl
  | cons x xs ih => simp [List.flatMap_cons, List.foldl_append, ih]

/-- The two loops over a tile run their body on the cells of `tileCells`. -/
theorem forUp_tile {σ : Type} (N tileRow tileColumn k l : Nat)
    (cell : Nat → Nat → σ → σ) (s : σ) :
    forUp l (cMin (l + tileRow - 1) N) (fun ll s =>
        forUp k (cMin (k + tileColumn - 1) N) (fun kk s => cell kk ll s) s) s
      = (tileCells N tileRow tileColumn k l).foldl (fun s p => cell p.1 p.2 s) s := by
  simp [forUp, tileCells, foldl_flatMap_eq, List.foldl_map]

/-- With a positive step and fuel for every test, the loop returns, and it
has run its body at the values of `stepList`. -/
theorem forStep_eq_foldl {σ : Type} (hi step : Nat) (body : Nat → σ → Option σ)
    (f : Nat → σ → σ) (hbody : ∀ x s, body x s = some (f x s)) (hstep : 1 ≤ step) :
    ∀ (fuel x : Nat) (s : σ), hi ≤ x + fuel →
      forStep hi step body (fuel + 1) x s
        = some ((stepList hi step (fuel + 1) x).foldl (fun s k => f k s) s) := by
  intro fuel
  induction fuel with
  | zero =>
      intro x s h
      have hx : ¬ x < hi := by omega
      simp [forStep, stepList, hx]
  | succ fuel ih =>
      intro x s h
      by_cases hx : x < hi
      · rw [forStep, stepList]
        simp only [hx, if_true, hbody, Option.some_bind, List.foldl_cons]
        exact ih (x + step) (f x s) (by omega)
      · rw [forStep, stepList]
        simp [hx]

/-- The tile loops return when both tile sizes are positive and the fuel
exceeds `N`, and they have run their body on the cells of `visitList`. -/
theorem tileLoops_eq_foldl {σ : Type} (fuel N tileRow tileColumn : Nat)
    (cell : Nat → Nat → σ → σ) (s : σ)
    (hrow : 1 ≤ tileRow) (hcol : 1 ≤ tileColumn) (hfuel : N < fuel) :
    tileLoops fuel N tileRow tileColumn cell s
      = some ((visitList fuel N tileRow tileColumn).foldl (fun s p => cell p.1 p.2 s) s) := by
  obtain ⟨f, rfl⟩ : ∃ f, fuel = f + 1 := ⟨fuel - 1, by omega⟩
  unfold tileLoops visitList
  simp only [forUp_tile]
  rw [forStep_eq_foldl N tileColumn _
    (fun k s => ((stepList N tileRow (f + 1) 0).flatMap (fun l =>
      tileCells N tileRow tileColumn k l)).foldl (fun s p => cell p.1 p.2 s) s)
    _ hcol f 0 s (by omega)]
  · rw [foldl_flatMap_eq]
  · intro k s
    rw [forStep_eq_foldl N tileRow _
      (fun l s => (tileCells N tileRow tileColumn k l).foldl (fun s p => cell p.1 p.2 s) s)
      (fun _ _ => rfl) hrow f 0 s (by omega)]
    simp only [foldl_flatMap_eq]

theorem foldl_record {α : Type} (xs acc : List α) :
    xs.foldl (fun t p => t ++ [p]) acc = acc ++ xs := by
  induction xs generalizing acc with
  | nil => simp
  | cons x xs ih => simp [ih]

theorem tiledVisits_eq (fuel N tileRow tileColumn : Nat)
    (hrow : 1 ≤ tileRow) (hcol : 1 ≤ tileColumn) (hfuel : N < fuel) :
    tiledVisits fuel N tileRow tileColumn = some (visitList fuel N tileRow tileColumn) := by
  unfold tiledVisits
  rw [tileLoops_eq_foldl fuel N tileRow tileColumn _ _ hrow hcol hfuel, foldl_record]
  simp

theorem mem_stepList_bounds (hi step : Nat) :
    ∀ (fuel x k : Nat), k ∈ stepList hi step fuel x → x ≤ k ∧ k < hi := by
  intro fuel
  induction fuel with
  | zero => intro x k h; simp [stepList] at h
  | succ fuel ih =>
      intro x k h
      rw [stepList] at h
      split at h
      · rcases List.mem_cons.1 h with rfl | h
        · omega
        · have := ih (x + step) k h
          omega
      · simp at h

theorem stepList_pairwise (hi step : Nat) :
    ∀ (fuel x : Nat), (stepList hi step fuel x).Pairwise (fun a b => a + step ≤ b) := by
  intro fuel
  induction fuel with
  | zero => intro x; simp [stepList]
  | succ fuel ih =>
      intro x
      rw [stepList]
      split
      · refine List.pairwise_cons.2 ⟨fun b hb => ?_, ih (x + step)⟩
        exact (mem_stepList_bounds hi step fuel (x + step) b hb).1
      · exact List.Pairwise.nil

theorem mem_tileCells (N tileRow tileColumn k l : Nat) (p : Nat × Nat) :
    p ∈ tileCells N tileRow tileColumn k l ↔
      (k ≤ p.1 ∧ p.1 < k + tileColumn - 1 ∧ p.1 < N) ∧
      (l ≤ p.2 ∧ p.2 < l + tileRow - 1 ∧ p.2 < N) := by
  obtain ⟨a, b⟩ := p
  simp only [tileCells, List.mem_flatMap, List.mem_map, List.mem_range'_1, cMin_eq_min,
    Prod.mk.injEq]
  constructor
  · rintro ⟨ll, hll, kk, hkk, rfl, rfl⟩
    omega
  · intro h
    exact ⟨b, by omega, a, by omega, rfl, rfl⟩

theorem tileCells_nodup (N tileRow tileColumn k l : Nat) :
    (tileCells N tileRow tileColumn k l).Nodup := by
  unfold tileCells
  rw [List.nodup_flatMap]
  refine ⟨fun ll _ => ?_, ?_⟩
  · refine (List.nodup_range' _ _).map ?_
    intro a b h
    simpa using h
  · refine List.Pairwise.imp_of_mem ?_ (List.nodup_range' l _)
    intro a b _ _ hab
    simp only [Function.onFun]
    intro p hp hq
    simp only [List.mem_map] at hp hq
    obtain ⟨_, _, rfl⟩ := hp
    obtain ⟨_, _, h⟩ := hq
    simp at h
    exact hab h.2.symm

theorem visitList_nodup (fuel N tileRow tileColumn : Nat) :
    (visitList fuel N tileRow tileColumn).Nodup := by
  unfold visitList
  rw [List.nodup_flatMap]
  refine ⟨fun k _ => ?_, ?_⟩
  · rw [List.nodup_flatMap]
    refine ⟨fun l _ => tileCells_nodup N tileRow tileColumn k l, ?_⟩
    refine (stepList_pairwise N tileRow fuel 0).imp ?_
    intro l l' hll
    simp only [Function.onFun]
    intro p hp hq
    rw [mem_tileCells] at hp hq
    omega
  · refine (stepList_pairwise N tileColumn fuel 0).imp ?_
    intro k k' hkk
    simp only [Function.onFun]
    intro p hp hq
    simp only [List.mem_flatMap, mem_tileCells] at hp hq
    obtain ⟨_, _, hp⟩ := hp
    obtain ⟨_, _, hq⟩ := hq
    omega

theorem mem_stepList_iff (hi step : Nat) (hstep : 1 ≤ step) :
    ∀ (fuel x k : Nat), hi ≤ x + fuel →
      (k ∈ stepList hi step (fuel + 1) x ↔ x ≤ k ∧ k < hi ∧ (k - x) % step = 0) := by
  intro fuel
  induction fuel with
  | zero =>
      intro x k h
      have hx : ¬ x < hi := by omega
      simp only [stepList, hx, if_false, List.not_mem_nil, false_iff]
      omega
  | succ fuel ih =>
      intro x k h
      rw [stepList]
      by_cases hx : x < hi
      · simp only [hx, if_true, List.mem_cons]
        rw [ih (x + step) k (by omega)]
        constructor
        · rintro (rfl | ⟨h1, h2, h3⟩)
          · simp [hx]
          · refine ⟨by omega, h2, ?_⟩
            have : k - x = (k - (x + step)) + step := by omega
            rw [this, Nat.add_mod_right]
            exact h3
        · rintro ⟨h1, h2, h3⟩
          by_cases hk : k = x
          · exact Or.inl hk
          · right
            have hpos : 0 < k - x := by omega
            have hle : step ≤ k - x := Nat.le_of_dvd hpos (Nat.dvd_of_mod_eq_zero h3)
            refine ⟨by omega, h2, ?_⟩
            have : k - x = (k - (x + step)) + step := by omega
            rw [this, Nat.add_mod_right] at h3
            exact h3
      · simp only [hx, if_false, List.not_mem_nil, false_iff]
        omega

/-- In one dimension: an index lies in the range some tile enumerates iff it
is below `N` and is not the last index of a full tile. -/
theorem exists_tile_start_iff (N t a : Nat) (ht : 1 ≤ t) :
    (∃ k, (k < N ∧ k % t = 0) ∧ k ≤ a ∧ a < k + t - 1 ∧ a < N) ↔
      a < N ∧ a % t ≠ t - 1 := by
  have hdm := Nat.div_add_mod a t
  have hlt : a % t < t := Nat.mod_lt a (by omega)
  constructor
  · rintro ⟨k, ⟨_, hk0⟩, hka, hak, haN⟩
    refine ⟨haN, ?_⟩
    obtain ⟨q, rfl⟩ := Nat.dvd_of_mod_eq_zero hk0
    have ha : a = (a - t * q) + t * q := by omega
    have hr : a - t * q < t := by omega
    have hmod : a % t = a - t * q := by
      rw [ha, Nat.add_mul_mod_self_left, Nat.mod_eq_of_lt hr]
      omega
    omega
  · rintro ⟨haN, hne⟩
    refine ⟨t * (a / t), ⟨by omega, Nat.mul_mod_right _ _⟩, by omega, by omega, haN⟩

/-- The cells the tile loops visit: the cells of `[0,N)×[0,N)` that are not
in the last row or the last column of a full tile. -/
theorem mem_visitList_iff (fuel N tileRow tileColumn : Nat)
    (hrow : 1 ≤ tileRow) (hcol : 1 ≤ tileColumn) (hfuel : N < fuel) (a b : Nat) :
    (a, b) ∈ visitList fuel N tileRow tileColumn ↔
      (a < N ∧ a % tileColumn ≠ tileColumn - 1) ∧ (b < N ∧ b % tileRow ≠ tileRow - 1) := by
  obtain ⟨f, rfl⟩ : ∃ f, fuel = f + 1 := ⟨fuel - 1, by omega⟩
  rw [← exists_tile_start_iff N tileColumn a hcol, ← exists_tile_start_iff N tileRow b hrow]
  simp only [visitList, List.mem_flatMap, mem_tileCells,
    mem_stepList_iff N tileColumn hcol f 0 _ (by omega : N ≤ 0 + f),
    mem_stepList_iff N tileRow hrow f 0 _ (by omega : N ≤ 0 + f), Nat.sub_zero, Nat.zero_le,
    true_and]
  constructor
  · rintro ⟨k, hk, l, hl, hka, hlb⟩
    exact ⟨⟨k, hk, hka⟩, ⟨l, hl, hlb⟩⟩
  · rintro ⟨⟨k, hk, hka⟩, ⟨l, hl, hlb⟩⟩
    exact ⟨k, hk, l, hl, hka, hlb⟩

/-- Adding `g` to the cells of a list without repetition. -/
theorem foldl_add_apply (g : Nat → Nat → ℚ) (a b : Nat) :
    ∀ (vs : List (Nat × Nat)) (X : Grid), vs.Nodup →
      vs.foldl (fun X p => setCell X p.1 p.2 (X p.1 p.2 + g p.1 p.2)) X a b
        = if (a, b) ∈ vs then X a b + g a b else X a b := by
  intro vs
  induction vs with
  | nil => intro X _; simp
  | cons p vs ih =>
      intro X hnd
      obtain ⟨hp, hvs⟩ := List.nodup_cons.1 hnd
      rw [List.foldl_cons, ih _ hvs]
      obtain ⟨r, c⟩ := p
      by_cases hab : a = r ∧ b = c
      · obtain ⟨rfl, rfl⟩ := hab
        simp [setCell, hp]
      · have hne : ¬ (a, b) = (r, c) := by simpa using hab
        simp [setCell, hab, hne]

/-- The tiled computation returns when both tile sizes are positive and the
fuel exceeds `N`; it has added the correlation sum to every cell the tile
loops visit and has left every other cell as it was. -/
theorem tiled_apply (fuel N W tileRow tileColumn : Nat) (A B C : Grid)
    (hrow : 1 ≤ tileRow) (hcol : 1 ≤ tileColumn) (hfuel : N < fuel) :
    ∃ C', tiled fuel N W tileRow tileColumn A B C = some C' ∧
      ∀ a b, C' a b =
        if (a < N ∧ a % tileColumn ≠ tileColumn - 1) ∧ (b < N ∧ b % tileRow ≠ tileRow - 1)
        then C a b + corr W A B a b else C a b := by
  refine ⟨_, tileLoops_eq_foldl fuel N tileRow tileColumn _ C hrow hcol hfuel, fun a b => ?_⟩
  simp only [tiledCell_eq]
  rw [foldl_add_apply (corr W A B) a b _ C (visitList_nodup fuel N tileRow tileColumn)]
  simp only [mem_visitList_iff fuel N tileRow tileColumn hrow hcol hfuel]

theorem corr_const_one (W k l : Nat) : corr W (constGrid 1) (constGrid 1) k l = (W : ℚ) * W := by
  simp [corr, constGrid]

/-! ## The correctness test -/

theorem mismatch_iff_abs (x y : ℚ) : mismatch x y = true ↔ |x - y| > 1 / 2 := by
  unfold mismatch
  simp only [Bool.or_eq_true, decide_eq_true_eq, gt_iff_lt, lt_abs, neg_sub]

theorem mismatch_false_iff_abs (x y : ℚ) : mismatch x y = false ↔ |x - y| ≤ 1 / 2 := by
  rw [← not_lt, ← gt_iff_lt, ← mismatch_iff_abs]
  simp

theorem head_append_of_head {α : Type} (xs ys : List α) (a : α)
    (h : xs.head? = some a) : (xs ++ ys).head? = some a := by
  cases xs with
  | nil => simp at h
  | cons x xs => simpa using h

/-- One row of the scan entered with `test` not yet `0`: either no cell of
the row mismatches and nothing changes, or the first mismatching cell of the
row is printed and `test` becomes `0`. -/
theorem oracleRow_spec (Corig C : Grid) (i : Nat) :
    ∀ (n j : Nat) (s : OracleState), s.test ≠ 0 →
      (oracleRow Corig C i n j s = s ∧
        ∀ j', j ≤ j' → j' < j + n → mismatch (Corig i j') (C i j') = false) ∨
      (∃ j0, j ≤ j0 ∧ j0 < j + n ∧ mismatch (Corig i j0) (C i j0) = true ∧
        (∀ j', j ≤ j' → j' < j0 → mismatch (Corig i j') (C i j') = false) ∧
        oracleRow Corig C i n j s
          = { test := 0, out := s.out ++ [Line.failing i j0 (Corig i j0) (C i j0)] }) := by
  intro n
  induction n with
  | zero =>
      intro j s _
      left
      exact ⟨rfl, fun j' h1 h2 => by omega⟩
  | succ n ih =>
      intro j s hs
      by_cases hm : mismatch (Corig i j) (C i j) = true
      · right
        refine ⟨j, le_refl _, by omega, hm, fun j' h1 h2 => by omega, ?_⟩
        simp [oracleRow, hm]
      · have hm' : mismatch (Corig i j) (C i j) = false := by simpa using hm
        have hstep : oracleRow Corig C i (n + 1) j s = oracleRow Corig C i n (j + 1) s := by
          simp [oracleRow, hm', hs]
        rcases ih (j + 1) s hs with ⟨h1, h2⟩ | ⟨j0, h1, h2, h3, h4, h5⟩
        · left
          refine ⟨by rw [hstep, h1], fun j' hj1 hj2 => ?_⟩
          by_cases hj : j' = j
          · subst hj; exact hm'
          · exact h2 j' (by omega) (by omega)
        · right
          refine ⟨j0, by omega, by omega, h3, fun j' hj1 hj2 => ?_, by rw [hstep, h5]⟩
          by_cases hj : j' = j
          · subst hj; exact hm'
          · exact h4 j' (by omega) hj2

/-- One row of the scan entered with `test = 0`: `test` stays `0` and the
lines printed before stay at the front of the output. -/
theorem oracleRow_after (Corig C : Grid) (i n j : Nat) (s : OracleState) (hs : s.test = 0) :
    (oracleRow Corig C i n j s).test = 0 ∧
      ∃ more, (oracleRow Corig C i n j s).out = s.out ++ more := by
  cases n with
  | zero => exact ⟨hs, [], by simp [oracleRow]⟩
  | succ n =>
      by_cases hm : mismatch (Corig i j) (C i j) = true
      · simp [oracleRow, hm]
      · have hm' : mismatch (Corig i j) (C i j) = false := by simpa using hm
        simp [oracleRow, hm', hs]

/-- The state of the scan after the rows `i < n` (of width `N`). -/
theorem oracleScan_rows (N : Nat) (Corig C : Grid) (n : Nat) :
    let s := forUp 0 n (fun i s => oracleRow Corig C i N 0 s)
      ({ test := 1, out := [] } : OracleState)
    (s.test = 1 ∧ s.out = [] ∧
        ∀ i, i < n → ∀ j, j < N → mismatch (Corig i j) (C i j) = false) ∨
    (s.test = 0 ∧ ∃ i j, i < n ∧ j < N ∧ mismatch (Corig i j) (C i j) = true ∧
        (∀ i', i' < i → ∀ j', j' < N → mismatch (Corig i' j') (C i' j') = false) ∧
        (∀ j', j' < j → mismatch (Corig i j') (C i j') = false) ∧
        s.out.head? = some (Line.failing i j (Corig i j) (C i j))) := by
  induction n with
  | zero =>
      left
      simp [forUp_zero_zero]
  | succ n ih =>
      simp only [forUp_zero_succ]
      simp only at ih
      generalize forUp 0 n (fun i s => oracleRow Corig C i N 0 s)
        ({ test := 1, out := [] } : OracleState) = s at ih ⊢
      rcases ih with ⟨ht, ho, hclean⟩ | ⟨ht, i, j, hi, hj, hm, h1, h2, hhead⟩
      · rcases oracleRow_spec Corig C n N 0 s (by rw [ht]; decide) with
          ⟨hrow, hno⟩ | ⟨j0, _, hj0, hm, hbefore, hrow⟩
        · left
          rw [hrow]
          refine ⟨ht, ho, fun i hi j hj => ?_⟩
          by_cases hin : i = n
          · subst hin; exact hno j (Nat.zero_le _) (by omega)
          · exact hclean i (by omega) j hj
        · right
          rw [hrow]
          refine ⟨rfl, n, j0, by omega, by omega, hm, fun i' hi' j' hj' => hclean i' hi' j' hj',
            fun j' hj' => hbefore j' (Nat.zero_le _) hj', ?_⟩
          simp [ho]
      · right
        obtain ⟨ht', more, hout⟩ := oracleRow_after Corig C n N 0 s ht
        refine ⟨ht', i, j, by omega, hj, hm, h1, h2, ?_⟩
        rw [hout]
        exact head_append_of_head _ _ _ hhead

/-! ## The claims -/

/-- C2: after the baseline computation every cell `(k, l)` of `[0,N)×[0,N)`
holds the double sum over `i < W` and `j < W` of `A[k+i][l+j] * B[i][j]`,
whatever the array `Corig` held before. -/
theorem baseline_cell_eq_sum (N W : Nat) (A B Corig : Grid) (k l : Nat)
    (hk : k < N) (hl : l < N) :
    baseline N W A B Corig k l
      = ∑ i in Finset.range W, ∑ j in Finset.range W, A (k + i) (l + j) * B i j := by
  rw [baseline_apply, if_pos ⟨hk, hl⟩]
  rfl

theorem baseline_cell_eq_sum_witness :
    1 < 2 ∧ 0 < 2 ∧ baseline 2 1 (constGrid 3) (constGrid 5) (constGrid 7) 1 0
      = ∑ i in Finset.range 1, ∑ j in Finset.range 1,
          (constGrid 3) (1 + i) (0 + j) * (constGrid 5) i j :=
  ⟨by decide, by decide,
    baseline_cell_eq_sum 2 1 (constGrid 3) (constGrid 5) (constGrid 7) 1 0 (by decide) (by decide)⟩

/-- C1 (the code departs from the claim): with the sizes of the program
(`N = 4096`, `W = 32`, tiles of 8×8), `A` and `B` all `1` and `C` created
zero, the tiled computation returns with `C[7][7] = 0`, the baseline has
`Corig[7][7] = 1024`, and the two are not within `0.5`. -/
theorem tiled_misses_baseline_at_7_7 :
    ∃ C, tiled 4097 4096 32 8 8 (constGrid 1) (constGrid 1) (constGrid 0) = some C ∧
      C 7 7 = 0 ∧
      baseline 4096 32 (constGrid 1) (constGrid 1) (constGrid 0) 7 7 = 1024 ∧
      ¬ |baseline 4096 32 (constGrid 1) (constGrid 1) (constGrid 0) 7 7 - C 7 7| ≤ 1 / 2 := by
  obtain ⟨C, hC, happ⟩ := tiled_apply 4097 4096 32 8 8 (constGrid 1) (constGrid 1)
    (constGrid 0) (by decide) (by decide) (by decide)
  have h1 : C 7 7 = 0 := by
    rw [happ 7 7]
    simp [constGrid]
  have h2 : baseline 4096 32 (constGrid 1) (constGrid 1) (constGrid 0) 7 7 = 1024 := by
    rw [baseline_apply, corr_const_one]
    norm_num
  refine ⟨C, hC, h1, h2, ?_⟩
  rw [h1, h2]
  norm_num

/-- C3 (the code departs from the claim): with `N = 4096` and tiles of 8×8
the tile loops return, and the cells `(7,7)`, `(0,7)` and `(7,0)` of
`[0,N)×[0,N)` are not among the cells they visit. -/
theorem tiledVisits_skips_7_7 :
    ∃ vs, tiledVisits 4097 4096 8 8 = some vs ∧
      (7, 7) ∉ vs ∧ (0, 7) ∉ vs ∧ (7, 0) ∉ vs := by
  refine ⟨_, tiledVisits_eq 4097 4096 8 8 (by decide) (by decide) (by decide), ?_, ?_, ?_⟩ <;>
    simp [mem_visitList_iff 4097 4096 8 8 (by decide) (by decide) (by decide)]

/-- One thread: for positive tile sizes and fuel above `N` the tile loops, run
by one thread, return, and the list of the cells they visit has no cell
twice. -/
theorem tiledVisits_nodup (fuel N tileRow tileColumn : Nat)
    (hrow : 1 ≤ tileRow) (hcol : 1 ≤ tileColumn) (hfuel : N < fuel) :
    ∃ vs, tiledVisits fuel N tileRow tileColumn = some vs ∧ vs.Nodup :=
  ⟨_, tiledVisits_eq fuel N tileRow tileColumn hrow hcol hfuel,
    visitList_nodup fuel N tileRow tileColumn⟩

theorem tiledVisits_nodup_witness :
    (1 ≤ 4 ∧ 1 ≤ 3 ∧ 10 < 11) ∧ ∃ vs, tiledVisits 11 10 4 3 = some vs ∧ vs.Nodup :=
  ⟨by decide, tiledVisits_nodup 11 10 4 3 (by decide) (by decide) (by decide)⟩

/-- C5 (the code departs from the claim): with `N = 10` and tiles of 8×8 the
tile at `k = 0`, `l = 8` is clamped by `N` in `ll`; its cell `(7, 8)` is not
visited, and from `C` created zero it ends at `0` where the correlation sum
is `1024` (`W = 32`, `A` and `B` all `1`). -/
theorem tiled_skips_cell_of_clamped_tile :
    cMin (8 + 8 - 1) 10 = 10 ∧
    (∃ vs, tiledVisits 11 10 8 8 = some vs ∧ (7, 8) ∉ vs) ∧
    (∃ C, tiled 11 10 32 8 8 (constGrid 1) (constGrid 1) (constGrid 0) = some C ∧
      C 7 8 = 0 ∧ corr 32 (constGrid 1) (constGrid 1) 7 8 = 1024) := by
  refine ⟨by decide, ⟨_, tiledVisits_eq 11 10 8 8 (by decide) (by decide) (by decide), ?_⟩, ?_⟩
  · simp [mem_visitList_iff 11 10 8 8 (by decide) (by decide) (by decide)]
  · obtain ⟨C, hC, happ⟩ := tiled_apply 11 10 32 8 8 (constGrid 1) (constGrid 1)
      (constGrid 0) (by decide) (by decide) (by decide)
    refine ⟨C, hC, ?_, ?_⟩
    · rw [happ 7 8]; simp [constGrid]
    · rw [corr_const_one]; norm_num

/-- C6 (the code departs from the claim): with `N = 4096`, `W = 32`, `A` and
`B` all `1` and `C` created zero, tiles of 1×1 leave `C[0][0] = 0` and tiles
of 8×8 leave `C[0][0] = 1024`. -/
theorem tiled_depends_on_tile_size :
    ∃ Ca Cb, tiled 4097 4096 32 1 1 (constGrid 1) (constGrid 1) (constGrid 0) = some Ca ∧
      tiled 4097 4096 32 8 8 (constGrid 1) (constGrid 1) (constGrid 0) = some Cb ∧
      Ca 0 0 = 0 ∧ Cb 0 0 = 1024 ∧ Ca ≠ Cb := by
  obtain ⟨Ca, hCa, happ1⟩ := tiled_apply 4097 4096 32 1 1 (constGrid 1) (constGrid 1)
    (constGrid 0) (by decide) (by decide) (by decide)
  obtain ⟨Cb, hCb, happ8⟩ := tiled_apply 4097 4096 32 8 8 (constGrid 1) (constGrid 1)
    (constGrid 0) (by decide) (by decide) (by decide)
  have h1 : Ca 0 0 = 0 := by rw [happ1 0 0]; simp [constGrid]
  have h8 : Cb 0 0 = 1024 := by
    rw [happ8 0 0, corr_const_one]; norm_num [constGrid]
  refine ⟨Ca, Cb, hCa, hCb, h1, h8, fun h => ?_⟩
  rw [h, h8] at h1
  norm_num at h1

/-- C7 (the code departs from the claim): with `N = 4096`, `W = 32`, tiles of
8×8 and `A` and `B` all `1`, the visited cell `C[0][0]` ends at `1024` when
`C` held `0` before and at `1025` when `C` held `1` before. -/
theorem tiled_keeps_prior_contents :
    ∃ C C', tiled 4097 4096 32 8 8 (constGrid 1) (constGrid 1) (constGrid 0) = some C ∧
      tiled 4097 4096 32 8 8 (constGrid 1) (constGrid 1) (constGrid 1) = some C' ∧
      C 0 0 = 1024 ∧ C' 0 0 = 1025 := by
  obtain ⟨C, hC, happ⟩ := tiled_apply 4097 4096 32 8 8 (constGrid 1) (constGrid 1)
    (constGrid 0) (by decide) (by decide) (by decide)
  obtain ⟨C', hC', happ'⟩ := tiled_apply 4097 4096 32 8 8 (constGrid 1) (constGrid 1)
    (constGrid 1) (by decide) (by decide) (by decide)
  refine ⟨C, C', hC, hC', ?_, ?_⟩
  · rw [happ 0 0, corr_const_one]; norm_num [constGrid]
  · rw [happ' 0 0, corr_const_one]; norm_num [constGrid]

theorem oracle_getLast (N : Nat) (Corig C : Grid) :
    (oracle N Corig C).getLast?
      = some (if (oracleScan N Corig C).test = 0 then Line.failed else Line.passed) := by
  simp [oracle]

/-- The scan ends with `test = 1` when no cell mismatches and with `test = 0`
otherwise. -/
theorem oracleScan_test (N : Nat) (Corig C : Grid) :
    ((oracleScan N Corig C).test = 1 ↔
        ∀ i, i < N → ∀ j, j < N → mismatch (Corig i j) (C i j) = false) ∧
    ((oracleScan N Corig C).test = 0 ↔
        ∃ i, i < N ∧ ∃ j, j < N ∧ mismatch (Corig i j) (C i j) = true) := by
  rcases oracleScan_rows N Corig C N with ⟨ht, _, hclean⟩ | ⟨ht, i, j, hi, hj, hm, _⟩
  · have ht' : (oracleScan N Corig C).test = 1 := ht
    refine ⟨⟨fun _ => hclean, fun _ => ht'⟩, ⟨fun h => ?_, ?_⟩⟩
    · rw [ht'] at h; exact absurd h (by decide)
    · rintro ⟨i, hi, j, hj, hm⟩
      rw [hclean i hi j hj] at hm
      exact absurd hm (by decide)
  · have ht' : (oracleScan N Corig C).test = 0 := ht
    refine ⟨⟨fun h => ?_, fun h => ?_⟩, ⟨fun _ => ⟨i, hi, j, hj, hm⟩, fun _ => ht'⟩⟩
    · rw [ht'] at h; exact absurd h (by decide)
    · rw [h i hi j hj] at hm
      exact absurd hm (by decide)

/-- C10 (the code departs from the claim): with `N = 2`, `Corig` all `0` and
`C` all `1`, the correctness test prints a `TEST FAILING` line for the cell
`(0, 0)` and then another for the cell `(1, 0)`, before `TEST FAILED`. -/
theorem oracle_reports_twice :
    oracle 2 (constGrid 0) (constGrid 1)
      = [Line.failing 0 0 0 1, Line.failing 1 0 0 1, Line.failed] := by
  simp [oracle, oracleScan, forUp, List.range', oracleRow, mismatch, constGrid]
  norm_num


/-! ## The lines of the correctness test -/

/-- One row of the scan entered with `test = 0`: only the first cell tested
is examined, and it is printed when it mismatches. -/
theorem oracleRow_after_eq (Corig C : Grid) (i n j : Nat) (s : OracleState) (hs : s.test = 0) :
    oracleRow Corig C i (n + 1) j s =
      if mismatch (Corig i j) (C i j) then
        { test := 0, out := s.out ++ [Line.failing i j (Corig i j) (C i j)] }
      else s := by
  simp [oracleRow, hs]

/-- The lines printed by the scan of the rows `i < n`: at most one for a row,
each for the first mismatching cell of its row, the first of them for the
first mismatching cell of the scan. -/
theorem oracleScan_lines (N : Nat) (Corig C : Grid) (n : Nat) :
    ∃ cells : List (Nat × Nat),
      (forUp 0 n (fun i s => oracleRow Corig C i N 0 s)
        ({ test := 1, out := [] } : OracleState)).out = failingLines Corig C cells ∧
      cells.Pairwise (fun p q => p.1 < q.1) ∧
      (∀ p ∈ cells, p.1 < n ∧ p.2 < N ∧ mismatch (Corig p.1 p.2) (C p.1 p.2) = true ∧
        ∀ j', j' < p.2 → mismatch (Corig p.1 j') (C p.1 j') = false) := by
  induction n with
  | zero => exact ⟨[], by simp [forUp_zero_zero, failingLines], List.Pairwise.nil, by simp⟩
  | succ n ih =>
      obtain ⟨cells, hout, hpw, hall⟩ := ih
      have hrows := oracleScan_rows N Corig C n
      simp only at hrows
      simp only [forUp_zero_succ]
      generalize forUp 0 n (fun i s => oracleRow Corig C i N 0 s)
        ({ test := 1, out := [] } : OracleState) = s at hout hrows ⊢
      have hkeep : ∀ p ∈ cells, p.1 < n + 1 ∧ p.2 < N ∧
          mismatch (Corig p.1 p.2) (C p.1 p.2) = true ∧
          ∀ j', j' < p.2 → mismatch (Corig p.1 j') (C p.1 j') = false := by
        intro p hp
        obtain ⟨h1, h2⟩ := hall p hp
        exact ⟨by omega, h2⟩
      have hadd : ∀ j, j < N → mismatch (Corig n j) (C n j) = true →
          (∀ j', j' < j → mismatch (Corig n j') (C n j') = false) →
          ∃ cells' : List (Nat × Nat),
            s.out ++ [Line.failing n j (Corig n j) (C n j)] = failingLines Corig C cells' ∧
            cells'.Pairwise (fun p q => p.1 < q.1) ∧
            (∀ p ∈ cells', p.1 < n + 1 ∧ p.2 < N ∧
              mismatch (Corig p.1 p.2) (C p.1 p.2) = true ∧
              ∀ j', j' < p.2 → mismatch (Corig p.1 j') (C p.1 j') = false) := by
        intro j hj hm hbefore
        refine ⟨cells ++ [(n, j)], by simp [failingLines, hout], ?_, ?_⟩
        · rw [List.pairwise_append]
          refine ⟨hpw, List.pairwise_singleton _ _, fun p hp q hq => ?_⟩
          rw [List.mem_singleton] at hq
          subst hq
          exact (hall p hp).1
        · intro p hp
          rcases List.mem_append.1 hp with hp | hp
          · exact hkeep p hp
          · rw [List.mem_singleton] at hp
            subst hp
            exact ⟨by omega, hj, hm, hbefore⟩
      by_cases ht : s.test = 0
      · cases N with
        | zero => exact ⟨cells, by simpa [oracleRow] using hout, hpw, hkeep⟩
        | succ N =>
            rw [oracleRow_after_eq Corig C n N 0 s ht]
            by_cases hm : mismatch (Corig n 0) (C n 0) = true
            · simp only [hm, if_true]
              exact hadd 0 (by omega) hm (fun j' hj' => by omega)
            · simp only [hm]
              exact ⟨cells, hout, hpw, hkeep⟩
      · rcases oracleRow_spec Corig C n N 0 s ht with ⟨hrow, _⟩ | ⟨j0, _, hj0, hm, hbefore, hrow⟩
        · rw [hrow]
          exact ⟨cells, hout, hpw, hkeep⟩
        · rw [hrow]
          exact hadd j0 (by omega) hm (fun j' hj' => hbefore j' (Nat.zero_le _) hj')

theorem failingLines_head (Corig C : Grid) (cells : List (Nat × Nat)) (i j : Nat)
    (h : (failingLines Corig C cells).head? = some (Line.failing i j (Corig i j) (C i j))) :
    cells.head? = some (i, j) := by
  cases cells with
  | nil => simp [failingLines] at h
  | cons p rest =>
      obtain ⟨a, b⟩ := p
      simp [failingLines] at h
      simp [h.1, h.2.1]


/-- The cells printed by the correctness test: the output of the scan is
`failingLines` of a list of cells with increasing rows, each the first
mismatching cell of its row, and the list starts with the first mismatching
cell of the scan when there is one. -/
theorem oracleScan_cells (N : Nat) (Corig C : Grid) :
    ∃ cells : List (Nat × Nat),
      (oracleScan N Corig C).out = failingLines Corig C cells ∧
      cells.Pairwise (fun p q => p.1 < q.1) ∧
      (∀ p ∈ cells, p.1 < N ∧ p.2 < N ∧ mismatch (Corig p.1 p.2) (C p.1 p.2) = true ∧
        ∀ j', j' < p.2 → mismatch (Corig p.1 j') (C p.1 j') = false) ∧
      (∀ i, i < N → (∃ j, j < N ∧ mismatch (Corig i j) (C i j) = true) →
        (∀ i', i' < i → ∀ j', j' < N → mismatch (Corig i' j') (C i' j') = false) →
        ∃ j, cells.head? = some (i, j)) := by
  obtain ⟨cells, hout, hpw, hall⟩ := oracleScan_lines N Corig C N
  refine ⟨cells, hout, hpw, hall, fun i hi hex hclean => ?_⟩
  obtain ⟨j, hj, hm⟩ := hex
  rcases oracleScan_rows N Corig C N with ⟨_, _, hnone⟩ | ⟨_, i0, j0, hi0, hj0, hm0, h1, _, hhead⟩
  · rw [hnone i hi j hj] at hm
    exact absurd hm (by decide)
  · have hii : i0 = i := by
      rcases Nat.lt_trichotomy i0 i with hlt | heq | hgt
      · rw [hclean i0 hlt j0 hj0] at hm0
        exact absurd hm0 (by decide)
      · exact heq
      · rw [h1 i hgt j hj] at hm
        exact absurd hm (by decide)
    subst hii
    rw [hout] at hhead
    exact ⟨j0, failingLines_head Corig C cells i0 j0 hhead⟩

/-- C13: for every `N > 3`, with `Corig` all `0` and `C` zero except
`C[2][3] = 1`, the correctness test prints exactly the line
`TEST FAILING at C[2][3] = 0, 1` and then `TEST FAILED`. -/
theorem oracle_scenario_C (N : Nat) (hN : 3 < N) :
    oracle N (constGrid 0) (setCell (constGrid 0) 2 3 1)
      = [Line.failing 2 3 0 1, Line.failed] := by
  have hmis : ∀ i j, mismatch (constGrid 0 i j) (setCell (constGrid 0) 2 3 1 i j) = true ↔
      i = 2 ∧ j = 3 := by
    intro i j
    by_cases h : i = 2 ∧ j = 3
    · simp only [h, and_self, iff_true]
      rw [mismatch_iff_abs]
      norm_num [constGrid, setCell]
    · simp only [h, iff_false]
      rw [mismatch_iff_abs]
      simp [constGrid, setCell, h]
  obtain ⟨cells, hout, hpw, hall, hfirst⟩ :=
    oracleScan_cells N (constGrid 0) (setCell (constGrid 0) 2 3 1)
  have hmem : ∀ p ∈ cells, p = (2, 3) := by
    intro p hp
    have := (hmis p.1 p.2).1 (hall p hp).2.2.1
    exact Prod.ext this.1 this.2
  obtain ⟨j, hj⟩ := hfirst 2 (by omega) ⟨3, hN, (hmis 2 3).2 ⟨rfl, rfl⟩⟩ (fun i' hi' j' _ => by
    have : ¬ (i' = 2 ∧ j' = 3) := by omega
    rw [← hmis] at this
    simpa using this)
  have hcells : cells = [(2, 3)] := by
    cases cells with
    | nil => simp at hj
    | cons p rest =>
        have hp := hmem p (List.mem_cons_self _ _)
        subst hp
        cases rest with
        | nil => rfl
        | cons q rest' =>
            have hq := hmem q (by simp)
            subst hq
            have := (List.pairwise_cons.1 hpw).1 (2, 3) (List.mem_cons_self _ _)
            simp at this
  have htest : (oracleScan N (constGrid 0) (setCell (constGrid 0) 2 3 1)).test = 0 :=
    (oracleScan_test N _ _).2.2 ⟨2, by omega, 3, hN, (hmis 2 3).2 ⟨rfl, rfl⟩⟩
  simp only [oracle, hout, hcells, htest, failingLines]
  simp [constGrid, setCell]

theorem oracle_scenario_C_witness :
    3 < 4 ∧ oracle 4 (constGrid 0) (setCell (constGrid 0) 2 3 1)
      = [Line.failing 2 3 0 1, Line.failed] :=
  ⟨by decide, oracle_scenario_C 4 (by decide)⟩

/-! ## Scenarios and footprint of the tiled computation -/

theorem corr_two (A B : Grid) (k l : Nat) :
    corr 2 A B k l = A k l * B 0 0 + A k (l + 1) * B 0 1
      + (A (k + 1) l * B 1 0 + A (k + 1) (l + 1) * B 1 1) := by
  simp [corr, Finset.sum_range_succ]

/-- C11: with `N = 4`, `W = 2`, `A` equal to `1` on its 5×5 cells and `B`
equal to `1` on its 2×2 cells, every cell of `[0,4)×[0,4)` is `4` after the
baseline computation, and the tiled computation with 8×8 tiles, started on
`C` all zero, returns with every cell of `[0,4)×[0,4)` equal to `4`. -/
theorem scenario_A (fuel : Nat) (A B Corig : Grid)
    (hA : ∀ i j, i < 5 → j < 5 → A i j = 1) (hB : ∀ i j, i < 2 → j < 2 → B i j = 1)
    (hfuel : 4 < fuel) :
    (∀ k l, k < 4 → l < 4 → baseline 4 2 A B Corig k l = 4) ∧
    ∃ C, tiled fuel 4 2 8 8 A B (constGrid 0) = some C ∧
      ∀ k l, k < 4 → l < 4 → C k l = 4 := by
  have hcorr : ∀ k l, k < 4 → l < 4 → corr 2 A B k l = 4 := by
    intro k l hk hl
    rw [corr_two, hA k l (by omega) (by omega), hA k (l + 1) (by omega) (by omega),
      hA (k + 1) l (by omega) (by omega), hA (k + 1) (l + 1) (by omega) (by omega),
      hB 0 0 (by omega) (by omega), hB 0 1 (by omega) (by omega),
      hB 1 0 (by omega) (by omega), hB 1 1 (by omega) (by omega)]
    norm_num
  refine ⟨fun k l hk hl => ?_, ?_⟩
  · rw [baseline_apply, if_pos ⟨hk, hl⟩, hcorr k l hk hl]
  · obtain ⟨C, hC, happ⟩ := tiled_apply fuel 4 2 8 8 A B (constGrid 0)
      (by decide) (by decide) hfuel
    refine ⟨C, hC, fun k l hk hl => ?_⟩
    rw [happ k l, if_pos ⟨⟨hk, by omega⟩, ⟨hl, by omega⟩⟩, hcorr k l hk hl]
    simp [constGrid]

theorem scenario_A_witness :
    4 < 5 ∧ (∀ k l, k < 4 → l < 4 →
      baseline 4 2 (constGrid 1) (constGrid 1) (constGrid 9) k l = 4) ∧
    ∃ C, tiled 5 4 2 8 8 (constGrid 1) (constGrid 1) (constGrid 0) = some C ∧
      ∀ k l, k < 4 → l < 4 → C k l = 4 :=
  ⟨by decide, scenario_A 5 (constGrid 1) (constGrid 1) (constGrid 9)
    (fun _ _ _ _ => rfl) (fun _ _ _ _ => rfl) (by decide)⟩

/-- C12 (the code departs from the claim): with `N = 4096`, `W = 2`,
`B = [[1,0],[0,0]]`, `A` all `1`, tiles of 8×8 and `C` created zero, the
tiled computation returns with `C[0][0] = 1 = A[0][0]` but with
`C[7][7] = 0`, where `A[7][7] = 1`. -/
theorem scenario_B_fails_at_7_7 :
    ∃ C, tiled 4097 4096 2 8 8 (constGrid 1) (setCell (constGrid 0) 0 0 1) (constGrid 0)
        = some C ∧
      C 0 0 = 1 ∧ C 7 7 = 0 ∧ constGrid 1 7 7 = 1 := by
  obtain ⟨C, hC, happ⟩ := tiled_apply 4097 4096 2 8 8 (constGrid 1)
    (setCell (constGrid 0) 0 0 1) (constGrid 0) (by decide) (by decide) (by decide)
  refine ⟨C, hC, ?_, ?_, rfl⟩
  · rw [happ 0 0, corr_two]
    simp [constGrid, setCell]
  · rw [happ 7 7]
    simp [constGrid]

/-- C16 (the code departs from the claim): with `N = 4096`, `W = 32`, tiles
of 8×8 and `A` and `B` all `1`, a first run on `C` all zero returns with
`C[0][0] = 1024`, and a second run on the array the first one produced
returns with `C[0][0] = 2048`. -/
theorem tiled_twice_differs :
    ∃ C C', tiled 4097 4096 32 8 8 (constGrid 1) (constGrid 1) (constGrid 0) = some C ∧
      tiled 4097 4096 32 8 8 (constGrid 1) (constGrid 1) C = some C' ∧
      C 0 0 = 1024 ∧ C' 0 0 = 2048 ∧ C' ≠ C := by
  obtain ⟨C, hC, happ⟩ := tiled_apply 4097 4096 32 8 8 (constGrid 1) (constGrid 1)
    (constGrid 0) (by decide) (by decide) (by decide)
  obtain ⟨C', hC', happ'⟩ := tiled_apply 4097 4096 32 8 8 (constGrid 1) (constGrid 1)
    C (by decide) (by decide) (by decide)
  have h1 : C 0 0 = 1024 := by
    rw [happ 0 0, corr_const_one]; norm_num [constGrid]
  have h2 : C' 0 0 = 2048 := by
    rw [happ' 0 0, h1, corr_const_one]; norm_num
  refine ⟨C, C', hC, hC', h1, h2, fun h => ?_⟩
  rw [h, h1] at h2
  norm_num at h2

/-- C19 (amended): when one thread runs the iterations of the loop of line 57
one after another and arithmetic is exact, then for positive tile sizes and
fuel above `N` the tiled computation returns; the cells it visits are the
cells `(kk, ll)` of `[0,N)×[0,N)` with `kk mod tileColumn ≠ tileColumn - 1`
and `ll mod tileRow ≠ tileRow - 1`; a visited cell ends at its prior value
plus the sum over `i, j < W` of `A[kk+i][ll+j] * B[i][j]`, and every other
cell ends as it was. -/
theorem tiled_footprint (fuel N W tileRow tileColumn : Nat) (A B C : Grid)
    (hrow : 1 ≤ tileRow) (hcol : 1 ≤ tileColumn) (hfuel : N < fuel) :
    ∃ vs C', tiledVisits fuel N tileRow tileColumn = some vs ∧
      tiled fuel N W tileRow tileColumn A B C = some C' ∧
      (∀ kk ll, (kk, ll) ∈ vs ↔
        (kk < N ∧ ll < N) ∧ kk % tileColumn ≠ tileColumn - 1 ∧ ll % tileRow ≠ tileRow - 1) ∧
      (∀ kk ll, (kk, ll) ∈ vs → C' kk ll = C kk ll +
        ∑ i in Finset.range W, ∑ j in Finset.range W, A (kk + i) (ll + j) * B i j) ∧
      (∀ kk ll, (kk, ll) ∉ vs → C' kk ll = C kk ll) := by
  obtain ⟨C', hC', happ⟩ := tiled_apply fuel N W tileRow tileColumn A B C hrow hcol hfuel
  have hmem := mem_visitList_iff fuel N tileRow tileColumn hrow hcol hfuel
  refine ⟨_, C', tiledVisits_eq fuel N tileRow tileColumn hrow hcol hfuel, hC', ?_, ?_, ?_⟩
  · intro kk ll
    rw [hmem]
    constructor
    · rintro ⟨⟨h1, h2⟩, h3, h4⟩
      exact ⟨⟨h1, h3⟩, h2, h4⟩
    · rintro ⟨⟨h1, h3⟩, h2, h4⟩
      exact ⟨⟨h1, h2⟩, h3, h4⟩
  · intro kk ll h
    rw [happ kk ll, if_pos ((hmem kk ll).1 h)]
    rfl
  · intro kk ll h
    rw [happ kk ll, if_neg (fun hc => h ((hmem kk ll).2 hc))]

theorem tiled_footprint_witness :
    (1 ≤ 8 ∧ 1 ≤ 8 ∧ 4096 < 4097) ∧
    ∃ vs C', tiledVisits 4097 4096 8 8 = some vs ∧
      tiled 4097 4096 32 8 8 (constGrid 1) (constGrid 1) (constGrid 0) = some C' ∧
      (∀ kk ll, (kk, ll) ∈ vs ↔
        (kk < 4096 ∧ ll < 4096) ∧ kk % 8 ≠ 8 - 1 ∧ ll % 8 ≠ 8 - 1) ∧
      (∀ kk ll, (kk, ll) ∈ vs → C' kk ll = constGrid 0 kk ll +
        ∑ i in Finset.range 32, ∑ j in Finset.range 32,
          constGrid 1 (kk + i) (ll + j) * constGrid 1 i j) ∧
      (∀ kk ll, (kk, ll) ∉ vs → C' kk ll = constGrid 0 kk ll) :=
  ⟨by decide, tiled_footprint 4097 4096 32 8 8 (constGrid 1) (constGrid 1) (constGrid 0)
    (by decide) (by decide) (by decide)⟩



/-! ## Tile sizes outside `[1, N]` -/

/-- A loop with step `0` whose test holds never returns. -/
theorem forStep_step_zero {σ : Type} (hi : Nat) (body : Nat → σ → Option σ) :
    ∀ (fuel x : Nat) (s : σ), x < hi → forStep hi 0 body fuel x s = none := by
  intro fuel
  induction fuel with
  | zero => intro x s _; rfl
  | succ fuel ih =>
      intro x s hx
      rw [forStep]
      simp only [hx, if_true]
      cases h : body x s with
      | none => rfl
      | some s' => exact ih (x + 0) s' hx

/-- A loop whose body never returns does not return when its test holds. -/
theorem forStep_body_none {σ : Type} (hi step : Nat) (body : Nat → σ → Option σ)
    (hbody : ∀ x s, body x s = none) (fuel x : Nat) (s : σ) (hx : x < hi) :
    forStep hi step body fuel x s = none := by
  cases fuel with
  | zero => rfl
  | succ fuel => simp [forStep, hx, hbody]

theorem tileLoops_tile_zero {σ : Type} (fuel N tileRow tileColumn : Nat)
    (cell : Nat → Nat → σ → σ) (s : σ) (hN : 1 ≤ N) (h : tileRow = 0 ∨ tileColumn = 0) :
    tileLoops fuel N tileRow tileColumn cell s = none := by
  unfold tileLoops
  rcases h with h | h
  · subst h
    exact forStep_body_none N tileColumn _
      (fun k s => forStep_step_zero N _ fuel 0 s (by omega)) fuel 0 s (by omega)
  · subst h
    exact forStep_step_zero N _ fuel 0 s (by omega)

/-- C15 (as stated, refuted): with `N = 4` and tiles of 8×8, larger than `N`,
the tile loops return, having visited the cell `(0, 0)`, and the tiled
computation (`W = 2`, `A` and `B` all `1`, `C` all zero) returns an array
with `C[0][0] = 4`: nothing is rejected and `C` is modified. -/
theorem tiled_accepts_large_tile :
    (∃ vs, tiledVisits 5 4 8 8 = some vs ∧ (0, 0) ∈ vs) ∧
    ∃ C, tiled 5 4 2 8 8 (constGrid 1) (constGrid 1) (constGrid 0) = some C ∧
      C 0 0 = 4 ∧ C 0 0 ≠ constGrid 0 0 0 := by
  refine ⟨⟨_, tiledVisits_eq 5 4 8 8 (by decide) (by decide) (by decide), ?_⟩, ?_⟩
  · simp [mem_visitList_iff 5 4 8 8 (by decide) (by decide) (by decide)]
  · obtain ⟨C, hC, happ⟩ := tiled_apply 5 4 2 8 8 (constGrid 1) (constGrid 1)
      (constGrid 0) (by decide) (by decide) (by decide)
    have h : C 0 0 = 4 := by
      rw [happ 0 0, corr_const_one]; norm_num [constGrid]
    refine ⟨C, hC, h, ?_⟩
    rw [h]
    norm_num [constGrid]

/-- C15 (amended): the tiled computation rejects no tile size.  With positive
tile sizes and fuel above `N` it returns an array, and when both tile sizes
exceed `N` every cell of `[0,N)×[0,N)` has had its correlation sum added;
with a tile size of `0` and `N ≥ 1` it does not return, whatever the fuel. -/
theorem tiled_rejects_nothing (fuel N W tileRow tileColumn : Nat) (A B C : Grid) :
    (1 ≤ tileRow → 1 ≤ tileColumn → N < fuel →
      ∃ C', tiled fuel N W tileRow tileColumn A B C = some C' ∧
        (N < tileRow → N < tileColumn → ∀ k l, k < N → l < N →
          C' k l = C k l +
            ∑ i in Finset.range W, ∑ j in Finset.range W, A (k + i) (l + j) * B i j)) ∧
    (1 ≤ N → (tileRow = 0 ∨ tileColumn = 0) →
      tiled fuel N W tileRow tileColumn A B C = none) := by
  refine ⟨fun hrow hcol hfuel => ?_, fun hN h => tileLoops_tile_zero fuel N _ _ _ C hN h⟩
  obtain ⟨C', hC', happ⟩ := tiled_apply fuel N W tileRow tileColumn A B C hrow hcol hfuel
  refine ⟨C', hC', fun hr hc k l hk hl => ?_⟩
  have hk' : k % tileColumn = k := Nat.mod_eq_of_lt (by omega)
  have hl' : l % tileRow = l := Nat.mod_eq_of_lt (by omega)
  rw [happ k l, if_pos ⟨⟨hk, by omega⟩, ⟨hl, by omega⟩⟩]
  rfl

theorem tiled_rejects_nothing_witness :
    (∃ C', tiled 5 4 2 8 8 (constGrid 1) (constGrid 1) (constGrid 0) = some C' ∧
      (4 < 8 → 4 < 8 → ∀ k l, k < 4 → l < 4 →
        C' k l = constGrid 0 k l +
          ∑ i in Finset.range 2, ∑ j in Finset.range 2,
            constGrid 1 (k + i) (l + j) * constGrid 1 i j)) ∧
    tiled 5 4 2 0 8 (constGrid 1) (constGrid 1) (constGrid 0) = none :=
  ⟨(tiled_rejects_nothing 5 4 2 8 8 (constGrid 1) (constGrid 1) (constGrid 0)).1
      (by decide) (by decide) (by decide),
    (tiled_rejects_nothing 5 4 2 0 8 (constGrid 1) (constGrid 1) (constGrid 0)).2
      (by decide) (Or.inl rfl)⟩



/-! ## The extent of `A` -/

/-- A loop that appends `g x` to a list appends the `g x` in order. -/
theorem forUp_append {α : Type} (lo hi : Nat) (g : Nat → List α) (t : List α) :
    forUp lo hi (fun x t => t ++ g x) t = t ++ (List.range' lo (hi - lo)).flatMap g := by
  unfold forUp
  generalize List.range' lo (hi - lo) = xs
  induction xs generalizing t with
  | nil => simp
  | cons x xs ih => simp [ih, List.flatMap_cons, List.append_assoc]

theorem mem_fillCells (m i j : Nat) : (i, j) ∈ fillCells m ↔ i < m ∧ j < m := by
  unfold fillCells
  simp only [forUp_append, List.nil_append, List.mem_flatMap, List.mem_range'_1,
    List.mem_singleton, Prod.mk.injEq, Nat.sub_zero]
  constructor
  · rintro ⟨a, ha, b, hb, rfl, rfl⟩
    omega
  · intro h
    exact ⟨i, by omega, j, by omega, rfl, rfl⟩

/-- C17 (as stated, refuted): the `M` of the program is `4128`, which is not
`N + W - 1 = 4127`, and the fill loops assign `A[4127][4127]`. -/
theorem field_extent_not_4127 :
    Config.M = 4128 ∧ Config.N + Config.W - 1 = 4127 ∧ Config.M ≠ Config.N + Config.W - 1 ∧
      (4127, 4127) ∈ fillCells Config.M := by
  refine ⟨by decide, by decide, by decide, ?_⟩
  rw [mem_fillCells]
  decide

/-- C17 (amended): the `M` of the program is `N + 32`, which is `N + W` for
its `W = 32` and `4128` for its `N = 4096`, one more than `N + W - 1`; the
fill loops assign exactly the cells `A[i][j]` with `i < 4128` and `j < 4128`. -/
theorem field_extent (i j : Nat) :
    Config.M = Config.N + 32 ∧ Config.M = Config.N + Config.W ∧ Config.M = 4128 ∧
      Config.M = (Config.N + Config.W - 1) + 1 ∧
      ((i, j) ∈ fillCells Config.M ↔ i < 4128 ∧ j < 4128) := by
  refine ⟨rfl, by decide, by decide, by decide, ?_⟩
  rw [mem_fillCells]
  have : Config.M = 4128 := by decide
  rw [this]



/-! ## Indices within the declared extents -/

theorem foldlM_eq_some {σ : Type} (bodyM : Nat → σ → Option σ) (body : Nat → σ → σ) :
    ∀ (xs : List Nat) (s : σ), (∀ x ∈ xs, ∀ s, bodyM x s = some (body x s)) →
      xs.foldlM (fun acc x => bodyM x acc) s = some (xs.foldl (fun acc x => body x acc) s) := by
  intro xs
  induction xs with
  | nil => intro s _; rfl
  | cons x xs ih =>
      intro s h
      rw [List.foldlM_cons, h x (List.mem_cons_self _ _) s]
      exact ih (body x s) (fun y hy => h y (List.mem_cons_of_mem _ hy))

/-- A loop whose body succeeds at every value of its counter succeeds, with
the result of the loop over the unchecked body. -/
theorem forUpM_eq_some {σ : Type} (lo hi : Nat) (bodyM : Nat → σ → Option σ)
    (body : Nat → σ → σ) (s : σ)
    (h : ∀ x, lo ≤ x → x < hi → ∀ s, bodyM x s = some (body x s)) :
    forUpM lo hi bodyM s = some (forUp lo hi body s) := by
  unfold forUpM forUp
  refine foldlM_eq_some bodyM body _ s (fun x hx => ?_)
  rw [List.mem_range'_1] at hx
  exact h x hx.1 (by omega)

theorem addProductChecked_eq_some (N W M : Nat) (A B : Grid) (r c i j : Nat) (X : Grid)
    (hM : N + W ≤ M + 1) (hr : r < N) (hc : c < N) (hi : i < W) (hj : j < W) :
    addProductChecked N W M A B r c i j X
      = some (setCell X r c (X r c + A (r + i) (c + j) * B i j)) := by
  have h1 : r + i < M ∧ c + j < M := by omega
  simp [addProductChecked, readCell, writeCell, hr, hc, hi, hj, h1]

/-- The two innermost loops with checked indices, for a cell of `[0,N)×[0,N)`
and a loop order `(i, j)` as in lines 65-71. -/
theorem tiledCellChecked_eq_some (N W M : Nat) (A B : Grid) (kk ll : Nat) (C : Grid)
    (hM : N + W ≤ M + 1) (hk : kk < N) (hl : ll < N) :
    forUpM 0 W (fun i C =>
        forUpM 0 W (fun j C => addProductChecked N W M A B kk ll i j C) C) C
      = some (tiledCell W A B kk ll C) := by
  unfold tiledCell
  refine forUpM_eq_some 0 W _ _ C (fun i _ hi C => ?_)
  refine forUpM_eq_some 0 W _ _ C (fun j _ hj C => ?_)
  exact addProductChecked_eq_some N W M A B kk ll i j C hM hk hl hi hj

theorem baselineCellChecked_eq_some (N W M : Nat) (A B : Grid) (k l : Nat) (Corig : Grid)
    (hM : N + W ≤ M + 1) (hk : k < N) (hl : l < N) :
    (writeCell N N Corig k l 0).bind (fun Corig =>
        forUpM 0 W (fun j Corig =>
          forUpM 0 W (fun i Corig =>
            addProductChecked N W M A B k l i j Corig) Corig) Corig)
      = some (baselineCell W A B k l Corig) := by
  unfold baselineCell
  simp only [writeCell, hk, hl, and_self, if_true, Option.some_bind]
  refine forUpM_eq_some 0 W _ _ _ (fun j _ hj C => ?_)
  refine forUpM_eq_some 0 W _ _ C (fun i _ hi C => ?_)
  exact addProductChecked_eq_some N W M A B k l i j C hM hk hl hi hj

theorem baselineChecked_eq (N W M : Nat) (A B Corig : Grid) (hM : N + W ≤ M + 1) :
    baselineChecked N W M A B Corig = some (baseline N W A B Corig) := by
  unfold baselineChecked baseline
  refine forUpM_eq_some 0 N _ _ Corig (fun l _ hl Corig => ?_)
  refine forUpM_eq_some 0 N _ _ Corig (fun k _ hk Corig => ?_)
  exact baselineCellChecked_eq_some N W M A B k l Corig hM hk hl

/-- No check of the tiled computation fails: with checked indices it returns
what `tiled` returns, for every fuel and all tile sizes. -/
theorem tiledChecked_eq (fuel N W M tileRow tileColumn : Nat) (A B C : Grid)
    (hM : N + W ≤ M + 1) :
    tiledChecked fuel N W M tileRow tileColumn A B C
      = tiled fuel N W tileRow tileColumn A B C := by
  have htile : ∀ k l (C : Grid),
      forUpM l (cMin (l + tileRow - 1) N) (fun ll C =>
        forUpM k (cMin (k + tileColumn - 1) N) (fun kk C =>
          forUpM 0 W (fun i C =>
            forUpM 0 W (fun j C =>
              addProductChecked N W M A B kk ll i j C) C) C) C) C
        = some (forUp l (cMin (l + tileRow - 1) N) (fun ll s =>
            forUp k (cMin (k + tileColumn - 1) N) (fun kk s =>
              tiledCell W A B kk ll s) s) C) := by
    intro k l C
    refine forUpM_eq_some _ _ _ _ C (fun ll _ hll C => ?_)
    refine forUpM_eq_some _ _ _ _ C (fun kk _ hkk C => ?_)
    rw [cMin_eq_min] at hll hkk
    exact tiledCellChecked_eq_some N W M A B kk ll C hM (by omega) (by omega)
  unfold tiledChecked tiled tileLoops
  simp only [htile]

/-- With `A` declared one row and one column short of `N + W - 1`, a check
of the baseline computation fails: the checks of `baselineChecked` are not
idle. -/
theorem baselineChecked_short_field :
    baselineChecked 1 2 1 (constGrid 1) (constGrid 1) (constGrid 0) = none := by
  simp [baselineChecked, forUpM, List.range', writeCell, addProductChecked, readCell]

/-- One thread: with `W = 32` and `A` declared `A[N+32][N+32]`, no index
check of the baseline computation fails, and none of the tiled computation
run by one thread does: for positive tile sizes and fuel above `N` both
return, with the arrays the unchecked computations give.  The checks are
`k+i, l+j < M` for `A`, `i, j < W` for `B` and `k, l < N` for `Corig` and
`C`. -/
theorem indices_in_bounds (fuel N tileRow tileColumn : Nat) (A B C Corig : Grid)
    (hrow : 1 ≤ tileRow) (hcol : 1 ≤ tileColumn) (hfuel : N < fuel) :
    baselineChecked N 32 (N + 32) A B Corig = some (baseline N 32 A B Corig) ∧
    ∃ C', tiledChecked fuel N 32 (N + 32) tileRow tileColumn A B C = some C' ∧
      tiled fuel N 32 tileRow tileColumn A B C = some C' := by
  refine ⟨baselineChecked_eq N 32 (N + 32) A B Corig (by omega), ?_⟩
  obtain ⟨C', hC', _⟩ := tiled_apply fuel N 32 tileRow tileColumn A B C hrow hcol hfuel
  exact ⟨C', by rw [tiledChecked_eq fuel N 32 (N + 32) _ _ A B C (by omega), hC'], hC'⟩

theorem indices_in_bounds_witness :
    (1 ≤ 8 ∧ 1 ≤ 8 ∧ 4096 < 4097) ∧
    baselineChecked 4096 32 (4096 + 32) (constGrid 1) (constGrid 1) (constGrid 0)
      = some (baseline 4096 32 (constGrid 1) (constGrid 1) (constGrid 0)) ∧
    ∃ C', tiledChecked 4097 4096 32 (4096 + 32) 8 8 (constGrid 1) (constGrid 1) (constGrid 0)
        = some C' ∧
      tiled 4097 4096 32 8 8 (constGrid 1) (constGrid 1) (constGrid 0) = some C' :=
  ⟨by decide, indices_in_bounds 4097 4096 8 8 (constGrid 1) (constGrid 1) (constGrid 0)
    (constGrid 0) (by decide) (by decide) (by decide)⟩



/-! ## The reduction of `sum_openmp.c` -/

/-- A loop that adds `f x` to an integer adds the sum of the `f x`. -/
theorem forUp_sum (lo hi : Nat) (f : Nat → Int) (a : Int) :
    forUp lo hi (fun x acc => acc + f x) a
      = a + ∑ x in Finset.range (hi - lo), f (lo + x) := by
  unfold forUp
  generalize hi - lo = n
  induction n with
  | zero => simp
  | succ n ih =>
      rw [List.range'_concat, List.foldl_append, ih, Finset.sum_range_succ]
      simp [add_assoc]

theorem sum_blocks (n : Nat) (data : Nat → Int) (T : Nat) :
    ∑ t in Finset.range T, ∑ x in Finset.range n, data (t * n + x)
      = ∑ i in Finset.range (T * n), data i := by
  induction T with
  | zero => simp
  | succ T ih =>
      rw [Finset.sum_range_succ, ih, Nat.succ_mul, Finset.sum_range_add]

namespace SumOpenmp

theorem partialSum_eq (numints : Nat) (data : Nat → Int) (tid : Nat) :
    partialSum numints data tid
      = ∑ x in Finset.range numints, data (tid * numints + x) := by
  unfold partialSum
  rw [forUp_sum, zero_add]
  have : (tid + 1) * numints - tid * numints = numints := by
    rw [Nat.succ_mul, Nat.add_sub_cancel_left]
  rw [this]

theorem parallelRegion_apply (T numints : Nat) (data : Nat → Int) (ps : Nat → Int) (t : Nat) :
    parallelRegion T numints data ps t
      = if t < T then partialSum numints data t else ps t := by
  unfold parallelRegion
  induction T with
  | zero => simp [forUp_zero_zero]
  | succ T ih =>
      rw [forUp_zero_succ]
      by_cases h : t = T
      · subst h; simp
      · have : t < T + 1 ↔ t < T := by omega
        rw [Function.update_noteq h, ih]
        simp [this]

theorem foldPartialSums_eq (T : Nat) (ps : Nat → Int) :
    foldPartialSums T ps = ∑ t in Finset.range T, ps t := by
  unfold foldPartialSums
  rw [forUp_sum]
  simp

theorem sumLoop_succ (T numints n : Nat) (data : Nat → Int) (ps : Nat → Int) :
    sumLoop T numints (n + 1) data ps
      = iteration T numints data (sumLoop T numints n data ps) := by
  unfold sumLoop
  rw [forUp_zero_succ]

end SumOpenmp

/-- C18: for every number of threads `T`, every `numints`, every `data` and
every `numiterations ≥ 1`, after the iteration loop of `sum_openmp.c` the
array `partial_sums` holds, for each thread `t < T`, the sum of
`data[t*numints .. (t+1)*numints)`; `total_sum` is the sum of these `T`
partial sums, which is the sum of the first `T*numints` values of `data`,
the same for every `numiterations ≥ 1`. -/
theorem total_sum_eq (T numints numiterations : Nat) (data : Nat → Int)
    (partial_sums : Nat → Int) (hiter : 1 ≤ numiterations) :
    (∀ t, t < T →
      (SumOpenmp.sumLoop T numints numiterations data partial_sums).partial_sums t
        = ∑ i in Finset.Ico (t * numints) ((t + 1) * numints), data i) ∧
    (SumOpenmp.sumLoop T numints numiterations data partial_sums).total_sum
      = ∑ t in Finset.range T,
          (SumOpenmp.sumLoop T numints numiterations data partial_sums).partial_sums t ∧
    (SumOpenmp.sumLoop T numints numiterations data partial_sums).total_sum
      = ∑ i in Finset.range (T * numints), data i := by
  obtain ⟨n, rfl⟩ : ∃ n, numiterations = n + 1 := ⟨numiterations - 1, by omega⟩
  rw [SumOpenmp.sumLoop_succ]
  generalize SumOpenmp.sumLoop T numints n data partial_sums = s
  have hps : ∀ t, t < T → (SumOpenmp.iteration T numints data s).partial_sums t
      = ∑ x in Finset.range numints, data (t * numints + x) := by
    intro t ht
    simp only [SumOpenmp.iteration, SumOpenmp.parallelRegion_apply, ht, if_true,
      SumOpenmp.partialSum_eq]
  have htot : (SumOpenmp.iteration T numints data s).total_sum
      = ∑ t in Finset.range T, (SumOpenmp.iteration T numints data s).partial_sums t := by
    simp only [SumOpenmp.iteration, SumOpenmp.foldPartialSums_eq]
  refine ⟨fun t ht => ?_, htot, ?_⟩
  · rw [hps t ht, Finset.sum_Ico_eq_sum_range]
    have : (t + 1) * numints - t * numints = numints := by
      rw [Nat.succ_mul, Nat.add_sub_cancel_left]
    rw [this]
  · rw [htot, ← sum_blocks]
    exact Finset.sum_congr rfl (fun t ht => hps t (Finset.mem_range.1 ht))

theorem total_sum_eq_witness :
    1 ≤ 3 ∧
    (∀ t, t < 2 →
      (SumOpenmp.sumLoop 2 2 3 (fun i => (i : Int) + 1) (fun _ => 7)).partial_sums t
        = ∑ i in Finset.Ico (t * 2) ((t + 1) * 2), ((i : Int) + 1)) ∧
    (SumOpenmp.sumLoop 2 2 3 (fun i => (i : Int) + 1) (fun _ => 7)).total_sum
      = ∑ t in Finset.range 2,
          (SumOpenmp.sumLoop 2 2 3 (fun i => (i : Int) + 1) (fun _ => 7)).partial_sums t ∧
    (SumOpenmp.sumLoop 2 2 3 (fun i => (i : Int) + 1) (fun _ => 7)).total_sum
      = ∑ i in Finset.range (2 * 2), ((i : Int) + 1) :=
  ⟨by decide, total_sum_eq 2 2 3 (fun i => (i : Int) + 1) (fun _ => 7) (by decide)⟩



/-! ## The arithmetic of `print_elapsed` -/

namespace Elapsed

theorem wrapLong_of_fits (x : Int) (h1 : -9223372036854775808 ≤ x)
    (h2 : x < 9223372036854775808) : wrapLong x = x := by
  unfold wrapLong
  omega

theorem elapsed_usec_range (start end_ : timeval)
    (hs0 : 0 ≤ start.tv_usec) (hs1 : start.tv_usec < 1000000)
    (he0 : 0 ≤ end_.tv_usec) (he1 : end_.tv_usec < 1000000) :
    0 ≤ (elapsed start end_).tv_usec ∧ (elapsed start end_).tv_usec < 1000000 := by
  unfold elapsed borrow
  split
  · simp only
    rw [wrapLong_of_fits (end_.tv_usec + 1000000) (by omega) (by omega),
      wrapLong_of_fits _ (by omega) (by omega)]
    omega
  · simp only
    rw [wrapLong_of_fits _ (by omega) (by omega)]
    omega

/-- With all four fields within `±2^42` no operation of `print_elapsed`
leaves the range of `long`, and the number that is divided is the difference
of the two times in microseconds. -/
theorem elapsed_total (start end_ : timeval)
    (hss : -4398046511104 ≤ start.tv_sec ∧ start.tv_sec ≤ 4398046511104)
    (hsu : -4398046511104 ≤ start.tv_usec ∧ start.tv_usec ≤ 4398046511104)
    (hes : -4398046511104 ≤ end_.tv_sec ∧ end_.tv_sec ≤ 4398046511104)
    (heu : -4398046511104 ≤ end_.tv_usec ∧ end_.tv_usec ≤ 4398046511104) :
    wrapLong (wrapLong ((elapsed start end_).tv_sec * 1000000) + (elapsed start end_).tv_usec)
      = (end_.tv_sec - start.tv_sec) * 1000000 + (end_.tv_usec - start.tv_usec) ∧
    -9223372036854775808 < (end_.tv_sec - start.tv_sec) * 1000000
      + (end_.tv_usec - start.tv_usec) := by
  unfold elapsed borrow
  split
  · simp only
    rw [wrapLong_of_fits (end_.tv_usec + 1000000) (by omega) (by omega),
      wrapLong_of_fits (end_.tv_sec - 1) (by omega) (by omega),
      wrapLong_of_fits (end_.tv_usec + 1000000 - start.tv_usec) (by omega) (by omega),
      wrapLong_of_fits (end_.tv_sec - 1 - start.tv_sec) (by omega) (by omega),
      wrapLong_of_fits ((end_.tv_sec - 1 - start.tv_sec) * 1000000) (by omega) (by omega),
      wrapLong_of_fits _ (by omega) (by omega)]
    omega
  · simp only
    rw [wrapLong_of_fits (end_.tv_usec - start.tv_usec) (by omega) (by omega),
      wrapLong_of_fits (end_.tv_sec - start.tv_sec) (by omega) (by omega),
      wrapLong_of_fits ((end_.tv_sec - start.tv_sec) * 1000000) (by omega) (by omega),
      wrapLong_of_fits _ (by omega) (by omega)]
    omega

end Elapsed

/-- C21 (as stated, refuted): with `start = {0, 0}`, `end = {9223372036855, 0}`
and `niters = 1` the product `elapsed.tv_sec*1000000` does not fit a `long`,
and `print_elapsed` prints `-9223372036854551616`, where the quotient the
claim names is `9223372036855000000`. -/
theorem print_elapsed_wraps :
    Elapsed.print_elapsed { tv_sec := 0, tv_usec := 0 }
        { tv_sec := 9223372036855, tv_usec := 0 } 1 = some (-9223372036854551616) ∧
    Int.tdiv (((9223372036855 : Int) - 0) * 1000000 + (0 - 0)) 1 = 9223372036855000000 ∧
    (-9223372036854551616 : Int) ≠ 9223372036855000000 := by
  decide

/-- C21 (amended): for every `start` and `end` whose four fields are within
`±2^42` and every `niters ≠ 0`, `print_elapsed` prints
`((end.tv_sec - start.tv_sec) * 1000000 + (end.tv_usec - start.tv_usec)) / niters`
of its arguments as they were passed, with the truncating division of C, in
both branches of the `if`; and when both `tv_usec` are in `[0, 1000000)` the
`elapsed.tv_usec` it computes is in `[0, 1000000)`. -/
theorem print_elapsed_value (start end_ : Elapsed.timeval) (niters : Int)
    (hn : niters ≠ 0)
    (hss : -4398046511104 ≤ start.tv_sec ∧ start.tv_sec ≤ 4398046511104)
    (hsu : -4398046511104 ≤ start.tv_usec ∧ start.tv_usec ≤ 4398046511104)
    (hes : -4398046511104 ≤ end_.tv_sec ∧ end_.tv_sec ≤ 4398046511104)
    (heu : -4398046511104 ≤ end_.tv_usec ∧ end_.tv_usec ≤ 4398046511104) :
    Elapsed.print_elapsed start end_ niters
      = some (Int.tdiv ((end_.tv_sec - start.tv_sec) * 1000000
          + (end_.tv_usec - start.tv_usec)) niters) ∧
    (0 ≤ start.tv_usec → start.tv_usec < 1000000 →
      0 ≤ end_.tv_usec → end_.tv_usec < 1000000 →
      0 ≤ (Elapsed.elapsed start end_).tv_usec ∧
        (Elapsed.elapsed start end_).tv_usec < 1000000) := by
  refine ⟨?_, Elapsed.elapsed_usec_range start end_⟩
  obtain ⟨htot, hmin⟩ := Elapsed.elapsed_total start end_ hss hsu hes heu
  unfold Elapsed.print_elapsed Elapsed.divLong
  rw [htot, if_neg hn, if_neg (fun h => absurd h.1 (by omega))]

theorem print_elapsed_value_witness :
    ((-7 : Int) ≠ 0) ∧
    Elapsed.print_elapsed { tv_sec := 10, tv_usec := 900000 }
        { tv_sec := 12, tv_usec := 100000 } (-7)
      = some (Int.tdiv (((12 : Int) - 10) * 1000000 + (100000 - 900000)) (-7)) ∧
    ((0 : Int) ≤ 900000 → (900000 : Int) < 1000000 →
      (0 : Int) ≤ 100000 → (100000 : Int) < 1000000 →
      0 ≤ (Elapsed.elapsed { tv_sec := 10, tv_usec := 900000 }
          { tv_sec := 12, tv_usec := 100000 }).tv_usec ∧
        (Elapsed.elapsed { tv_sec := 10, tv_usec := 900000 }
          { tv_sec := 12, tv_usec := 100000 }).tv_usec < 1000000) :=
  ⟨by decide, print_elapsed_value { tv_sec := 10, tv_usec := 900000 }
    { tv_sec := 12, tv_usec := 100000 } (-7) (by decide)
    (by decide) (by decide) (by decide) (by decide)⟩

/-! ## The subtraction of line 85 in `float` -/

theorem roundHalfEven_le (q : ℚ) (K : ℤ) (h : q ≤ K) : roundHalfEven q ≤ K := by
  have hf : (⌊q⌋ : ℚ) ≤ q := Int.floor_le q
  have hfK : ⌊q⌋ ≤ K := by exact_mod_cast hf.trans h
  have hstep : ¬ (q - ⌊q⌋ < 1 / 2) → ⌊q⌋ + 1 ≤ K := by
    intro hfrac
    have hne : ⌊q⌋ ≠ K := by
      intro heq
      apply hfrac
      have : q ≤ (⌊q⌋ : ℚ) := by rw [heq]; exact h
      linarith
    omega
  unfold roundHalfEven
  split
  · exact hfK
  · rename_i h1
    split
    · exact hstep h1
    · split
      · exact hfK
      · exact hstep h1

theorem roundHalfEven_eq (q : ℚ) (K : ℤ) (h1 : (K : ℚ) ≤ q) (h2 : q < K + 1 / 2) :
    roundHalfEven q = K := by
  have hfl : ⌊q⌋ = K := by
    rw [Int.floor_eq_iff]
    exact ⟨h1, by linarith⟩
  unfold roundHalfEven
  rw [hfl, if_pos (by linarith)]

theorem ulpFloat_pos (x : ℚ) : 0 < ulpFloat x := by
  unfold ulpFloat
  positivity

theorem roundFloat_le (x : ℚ) (K : ℤ) (h : x ≤ K * ulpFloat x) :
    roundFloat x ≤ K * ulpFloat x := by
  have hu := ulpFloat_pos x
  have hq : x / ulpFloat x ≤ K := by rwa [div_le_iff₀ hu]
  have hr : ((roundHalfEven (x / ulpFloat x) : ℤ) : ℚ) ≤ K := by
    exact_mod_cast roundHalfEven_le _ K hq
  unfold roundFloat
  exact mul_le_mul_of_nonneg_right hr hu.le

/-- A result that is not positive is stored as a value that is not positive. -/
theorem roundFloat_nonpos (x : ℚ) (h : x ≤ 0) : roundFloat x ≤ 0 := by
  have := roundFloat_le x 0 (by simpa using h)
  simpa using this

theorem log_two_eq (r : ℚ) (e : ℤ) (h0 : 0 < r) (h1 : (2 : ℚ) ^ e ≤ r)
    (h2 : r < (2 : ℚ) ^ (e + 1)) : Int.log 2 r = e := by
  have hb : 1 < (2 : ℕ) := by decide
  have ha : e ≤ Int.log 2 r := by
    rw [← Int.zpow_le_iff_le_log hb h0]
    exact_mod_cast h1
  have hc : Int.log 2 r < e + 1 := by
    rw [← Int.lt_zpow_iff_log_lt hb h0]
    exact_mod_cast h2
  omega

/-- A result of at most `0.5` is stored as a value of at most `0.5`. -/
theorem roundFloat_le_half (x : ℚ) (h : x ≤ 1 / 2) : roundFloat x ≤ 1 / 2 := by
  by_cases h0 : x ≤ 0
  · exact (roundFloat_nonpos x h0).trans (by norm_num)
  · have hpos : 0 < x := lt_of_not_ge h0
    have hlog : Int.log 2 |x| ≤ -1 := by
      rw [abs_of_pos hpos]
      have h1 : Int.log 2 x ≤ Int.log 2 ((2 : ℚ) ^ (-1 : ℤ)) :=
        Int.log_mono_right hpos (by norm_num; linarith)
      have h2 : Int.log 2 ((2 : ℚ) ^ (-1 : ℤ)) = -1 := by
        have := @Int.log_zpow ℚ _ _ 2 (by decide) (-1)
        exact_mod_cast this
      omega
    obtain ⟨n, hn⟩ : ∃ n : ℕ, (n : ℤ) = 22 - max (Int.log 2 |x|) (-126) :=
      ⟨(22 - max (Int.log 2 |x|) (-126)).toNat, Int.toNat_of_nonneg (by omega)⟩
    have hK : (((2 : ℤ) ^ n : ℤ) : ℚ) * ulpFloat x = 1 / 2 := by
      unfold ulpFloat
      push_cast
      rw [← zpow_natCast, ← zpow_add₀ (by norm_num : (2 : ℚ) ≠ 0), hn]
      have : 22 - max (Int.log 2 |x|) (-126) + (max (Int.log 2 |x|) (-126) - 23) = -1 := by
        ring
      rw [this]
      norm_num
    have := roundFloat_le x ((2 : ℤ) ^ n) (by rw [hK]; exact h)
    rwa [hK] at this

theorem ulpFloat_one : ulpFloat 1 = 2 ^ (-23 : ℤ) := by
  unfold ulpFloat
  rw [abs_one, Int.log_one_right]
  rfl

theorem roundFloat_one : roundFloat 1 = 1 := by
  unfold roundFloat
  rw [ulpFloat_one, roundHalfEven_eq _ 8388608 (by norm_num) (by norm_num)]
  norm_num

/-- The difference `0.5 - (-2^(-30)) = 0.5 + 2^(-30)` is stored as `0.5`: the
values of `float` next to `0.5` are `2^(-24)` apart. -/
theorem roundFloat_half_plus : roundFloat (1 / 2 - -(1 / 1073741824)) = 1 / 2 := by
  have hx : (1 / 2 - -(1 / 1073741824) : ℚ) = 536870913 / 1073741824 := by norm_num
  have hlog : Int.log 2 |(536870913 / 1073741824 : ℚ)| = -1 := by
    rw [abs_of_pos (by norm_num)]
    exact log_two_eq _ (-1) (by norm_num) (by norm_num) (by norm_num)
  have hulp : ulpFloat (536870913 / 1073741824) = 2 ^ (-24 : ℤ) := by
    unfold ulpFloat
    rw [hlog]
    rfl
  rw [hx]
  unfold roundFloat
  rw [hulp, roundHalfEven_eq _ 8388608 (by norm_num) (by norm_num)]
  norm_num

/-- Two values within `0.5` of each other pass the test of line 85. -/
theorem mismatchF_of_abs_le (x y : ℚ) (h : |x - y| ≤ 1 / 2) : mismatchF x y = false := by
  have h1 : x - y ≤ 1 / 2 := (le_abs_self _).trans h
  have h2 : y - x ≤ 1 / 2 := by
    have := (neg_le_abs (x - y)).trans h
    linarith
  have r1 := roundFloat_le_half _ h1
  have r2 := roundFloat_le_half _ h2
  simp only [mismatchF, subFloat, Bool.or_eq_false_iff, decide_eq_false_iff_not, not_lt, gt_iff_lt]
  exact ⟨r1, r2⟩

theorem mismatchF_false_iff (x y : ℚ) :
    mismatchF x y = false ↔ subFloat x y ≤ 1 / 2 ∧ subFloat y x ≤ 1 / 2 := by
  simp only [mismatchF, Bool.or_eq_false_iff, decide_eq_false_iff_not, not_lt, gt_iff_lt]

theorem mismatchF_true_iff (x y : ℚ) :
    mismatchF x y = true ↔ subFloat x y > 1 / 2 ∨ subFloat y x > 1 / 2 := by
  simp only [mismatchF, Bool.or_eq_true, decide_eq_true_eq]

theorem mismatchF_half : mismatchF (1 / 2) (-(1 / 1073741824)) = false := by
  rw [mismatchF_false_iff]
  refine ⟨?_, ?_⟩
  · unfold subFloat
    rw [roundFloat_half_plus]
  · unfold subFloat
    exact (roundFloat_nonpos _ (by norm_num)).trans (by norm_num)

theorem mismatchF_zero_one : mismatchF 0 1 = true := by
  rw [mismatchF_true_iff]
  right
  unfold subFloat
  rw [sub_zero, roundFloat_one]
  norm_num

theorem mismatchF_zero_zero : mismatchF 0 0 = false :=
  mismatchF_of_abs_le 0 0 (by norm_num)


theorem roundHalfEven_tie (K : ℤ) (hK : K % 2 = 0) : roundHalfEven ((K : ℚ) + 1 / 2) = K := by
  have hfl : ⌊(K : ℚ) + 1 / 2⌋ = K := by
    rw [Int.floor_eq_iff]
    constructor <;> linarith
  unfold roundHalfEven
  rw [hfl, if_neg (by norm_num), if_neg (by norm_num), if_pos hK]

/-- The sum `2^24 + 1` is stored as `2^24`: the values of `float` next to
`2^24` are `2` apart, and the tie goes to the even one. -/
theorem accFloat_two_pow_24 : accFloat 16777216 1 1 = 16777216 := by
  have hlog : Int.log 2 |(16777217 : ℚ)| = 24 := by
    rw [abs_of_pos (by norm_num)]
    exact log_two_eq _ 24 (by norm_num) (by norm_num) (by norm_num)
  have hulp : ulpFloat 16777217 = 2 := by
    unfold ulpFloat
    rw [hlog]
    norm_num
  have hq : (16777217 : ℚ) / 2 = ((8388608 : ℤ) : ℚ) + 1 / 2 := by norm_num
  unfold accFloat
  rw [mul_one, roundFloat_one]
  have h17 : (16777216 : ℚ) + 1 = 16777217 := by norm_num
  rw [h17]
  unfold roundFloat
  rw [hulp, hq, roundHalfEven_tie 8388608 (by decide)]
  norm_num


/-- With `mismatchF`.  One row of the scan entered with `test` not yet `0`: either no cell of
the row mismatches and nothing changes, or the first mismatching cell of the
row is printed and `test` becomes `0`. -/
theorem oracleRowF_spec (Corig C : Grid) (i : Nat) :
    ∀ (n j : Nat) (s : OracleState), s.test ≠ 0 →
      (oracleRowF Corig C i n j s = s ∧
        ∀ j', j ≤ j' → j' < j + n → mismatchF (Corig i j') (C i j') = false) ∨
      (∃ j0, j ≤ j0 ∧ j0 < j + n ∧ mismatchF (Corig i j0) (C i j0) = true ∧
        (∀ j', j ≤ j' → j' < j0 → mismatchF (Corig i j') (C i j') = false) ∧
        oracleRowF Corig C i n j s
          = { test := 0, out := s.out ++ [Line.failing i j0 (Corig i j0) (C i j0)] }) := by
  intro n
  induction n with
  | zero =>
      intro j s _
      left
      exact ⟨rfl, fun j' h1 h2 => by omega⟩
  | succ n ih =>
      intro j s hs
      by_cases hm : mismatchF (Corig i j) (C i j) = true
      · right
        refine ⟨j, le_refl _, by omega, hm, fun j' h1 h2 => by omega, ?_⟩
        simp [oracleRowF, hm]
      · have hm' : mismatchF (Corig i j) (C i j) = false := by simpa using hm
        have hstep : oracleRowF Corig C i (n + 1) j s = oracleRowF Corig C i n (j + 1) s := by
          simp [oracleRowF, hm', hs]
        rcases ih (j + 1) s hs with ⟨h1, h2⟩ | ⟨j0, h1, h2, h3, h4, h5⟩
        · left
          refine ⟨by rw [hstep, h1], fun j' hj1 hj2 => ?_⟩
          by_cases hj : j' = j
          · subst hj; exact hm'
          · exact h2 j' (by omega) (by omega)
        · right
          refine ⟨j0, by omega, by omega, h3, fun j' hj1 hj2 => ?_, by rw [hstep, h5]⟩
          by_cases hj : j' = j
          · subst hj; exact hm'
          · exact h4 j' (by omega) hj2

/-- With `mismatchF`.  One row of the scan entered with `test = 0`: `test` stays `0` and the
lines printed before stay at the front of the output. -/
theorem oracleRowF_after (Corig C : Grid) (i n j : Nat) (s : OracleState) (hs : s.test = 0) :
    (oracleRowF Corig C i n j s).test = 0 ∧
      ∃ more, (oracleRowF Corig C i n j s).out = s.out ++ more := by
  cases n with
  | zero => exact ⟨hs, [], by simp [oracleRowF]⟩
  | succ n =>
      by_cases hm : mismatchF (Corig i j) (C i j) = true
      · simp [oracleRowF, hm]
      · have hm' : mismatchF (Corig i j) (C i j) = false := by simpa using hm
        simp [oracleRowF, hm', hs]

/-- With `mismatchF`.  The state of the scan after the rows `i < n` (of width `N`). -/
theorem oracleScanF_rows (N : Nat) (Corig C : Grid) (n : Nat) :
    let s := forUp 0 n (fun i s => oracleRowF Corig C i N 0 s)
      ({ test := 1, out := [] } : OracleState)
    (s.test = 1 ∧ s.out = [] ∧
        ∀ i, i < n → ∀ j, j < N → mismatchF (Corig i j) (C i j) = false) ∨
    (s.test = 0 ∧ ∃ i j, i < n ∧ j < N ∧ mismatchF (Corig i j) (C i j) = true ∧
        (∀ i', i' < i → ∀ j', j' < N → mismatchF (Corig i' j') (C i' j') = false) ∧
        (∀ j', j' < j → mismatchF (Corig i j') (C i j') = false) ∧
        s.out.head? = some (Line.failing i j (Corig i j) (C i j))) := by
  induction n with
  | zero =>
      left
      simp [forUp_zero_zero]
  | succ n ih =>
      simp only [forUp_zero_succ]
      simp only at ih
      generalize forUp 0 n (fun i s => oracleRowF Corig C i N 0 s)
        ({ test := 1, out := [] } : OracleState) = s at ih ⊢
      rcases ih with ⟨ht, ho, hclean⟩ | ⟨ht, i, j, hi, hj, hm, h1, h2, hhead⟩
      · rcases oracleRowF_spec Corig C n N 0 s (by rw [ht]; decide) with
          ⟨hrow, hno⟩ | ⟨j0, _, hj0, hm, hbefore, hrow⟩
        · left
          rw [hrow]
          refine ⟨ht, ho, fun i hi j hj => ?_⟩
          by_cases hin : i = n
          · subst hin; exact hno j (Nat.zero_le _) (by omega)
          · exact hclean i (by omega) j hj
        · right
          rw [hrow]
          refine ⟨rfl, n, j0, by omega, by omega, hm, fun i' hi' j' hj' => hclean i' hi' j' hj',
            fun j' hj' => hbefore j' (Nat.zero_le _) hj', ?_⟩
          simp [ho]
      · right
        obtain ⟨ht', more, hout⟩ := oracleRowF_after Corig C n N 0 s ht
        refine ⟨ht', i, j, by omega, hj, hm, h1, h2, ?_⟩
        rw [hout]
        exact head_append_of_head _ _ _ hhead

/-- With `mismatchF`.  One row of the scan entered with `test = 0`: only the first cell tested
is examined, and it is printed when it mismatches. -/
theorem oracleRowF_after_eq (Corig C : Grid) (i n j : Nat) (s : OracleState) (hs : s.test = 0) :
    oracleRowF Corig C i (n + 1) j s =
      if mismatchF (Corig i j) (C i j) then
        { test := 0, out := s.out ++ [Line.failing i j (Corig i j) (C i j)] }
      else s := by
  simp [oracleRowF, hs]

/-- With `mismatchF`.  The lines printed by the scan of the rows `i < n`: at most one for a row,
each for the first mismatching cell of its row, the first of them for the
first mismatching cell of the scan. -/
theorem oracleScanF_lines (N : Nat) (Corig C : Grid) (n : Nat) :
    ∃ cells : List (Nat × Nat),
      (forUp 0 n (fun i s => oracleRowF Corig C i N 0 s)
        ({ test := 1, out := [] } : OracleState)).out = failingLines Corig C cells ∧
      cells.Pairwise (fun p q => p.1 < q.1) ∧
      (∀ p ∈ cells, p.1 < n ∧ p.2 < N ∧ mismatchF (Corig p.1 p.2) (C p.1 p.2) = true ∧
        ∀ j', j' < p.2 → mismatchF (Corig p.1 j') (C p.1 j') = false) := by
  induction n with
  | zero => exact ⟨[], by simp [forUp_zero_zero, failingLines], List.Pairwise.nil, by simp⟩
  | succ n ih =>
      obtain ⟨cells, hout, hpw, hall⟩ := ih
      have hrows := oracleScanF_rows N Corig C n
      simp only at hrows
      simp only [forUp_zero_succ]
      generalize forUp 0 n (fun i s => oracleRowF Corig C i N 0 s)
        ({ test := 1, out := [] } : OracleState) = s at hout hrows ⊢
      have hkeep : ∀ p ∈ cells, p.1 < n + 1 ∧ p.2 < N ∧
          mismatchF (Corig p.1 p.2) (C p.1 p.2) = true ∧
          ∀ j', j' < p.2 → mismatchF (Corig p.1 j') (C p.1 j') = false := by
        intro p hp
        obtain ⟨h1, h2⟩ := hall p hp
        exact ⟨by omega, h2⟩
      have hadd : ∀ j, j < N → mismatchF (Corig n j) (C n j) = true →
          (∀ j', j' < j → mismatchF (Corig n j') (C n j') = false) →
          ∃ cells' : List (Nat × Nat),
            s.out ++ [Line.failing n j (Corig n j) (C n j)] = failingLines Corig C cells' ∧
            cells'.Pairwise (fun p q => p.1 < q.1) ∧
            (∀ p ∈ cells', p.1 < n + 1 ∧ p.2 < N ∧
              mismatchF (Corig p.1 p.2) (C p.1 p.2) = true ∧
              ∀ j', j' < p.2 → mismatchF (Corig p.1 j') (C p.1 j') = false) := by
        intro j hj hm hbefore
        refine ⟨cells ++ [(n, j)], by simp [failingLines, hout], ?_, ?_⟩
        · rw [List.pairwise_append]
          refine ⟨hpw, List.pairwise_singleton _ _, fun p hp q hq => ?_⟩
          rw [List.mem_singleton] at hq
          subst hq
          exact (hall p hp).1
        · intro p hp
          rcases List.mem_append.1 hp with hp | hp
          · exact hkeep p hp
          · rw [List.mem_singleton] at hp
            subst hp
            exact ⟨by omega, hj, hm, hbefore⟩
      by_cases ht : s.test = 0
      · cases N with
        | zero => exact ⟨cells, by simpa [oracleRowF] using hout, hpw, hkeep⟩
        | succ N =>
            rw [oracleRowF_after_eq Corig C n N 0 s ht]
            by_cases hm : mismatchF (Corig n 0) (C n 0) = true
            · simp only [hm, if_true]
              exact hadd 0 (by omega) hm (fun j' hj' => by omega)
            · simp only [hm]
              exact ⟨cells, hout, hpw, hkeep⟩
      · rcases oracleRowF_spec Corig C n N 0 s ht with ⟨hrow, _⟩ | ⟨j0, _, hj0, hm, hbefore, hrow⟩
        · rw [hrow]
          exact ⟨cells, hout, hpw, hkeep⟩
        · rw [hrow]
          exact hadd j0 (by omega) hm (fun j' hj' => hbefore j' (Nat.zero_le _) hj')

/-- With `mismatchF`.  The cells printed by the correctness test: the output of the scan is
`failingLines` of a list of cells with increasing rows, each the first
mismatching cell of its row, and the list starts with the first mismatching
cell of the scan when there is one. -/
theorem oracleScanF_cells (N : Nat) (Corig C : Grid) :
    ∃ cells : List (Nat × Nat),
      (oracleScanF N Corig C).out = failingLines Corig C cells ∧
      cells.Pairwise (fun p q => p.1 < q.1) ∧
      (∀ p ∈ cells, p.1 < N ∧ p.2 < N ∧ mismatchF (Corig p.1 p.2) (C p.1 p.2) = true ∧
        ∀ j', j' < p.2 → mismatchF (Corig p.1 j') (C p.1 j') = false) ∧
      (∀ i, i < N → (∃ j, j < N ∧ mismatchF (Corig i j) (C i j) = true) →
        (∀ i', i' < i → ∀ j', j' < N → mismatchF (Corig i' j') (C i' j') = false) →
        ∃ j, cells.head? = some (i, j)) := by
  obtain ⟨cells, hout, hpw, hall⟩ := oracleScanF_lines N Corig C N
  refine ⟨cells, hout, hpw, hall, fun i hi hex hclean => ?_⟩
  obtain ⟨j, hj, hm⟩ := hex
  rcases oracleScanF_rows N Corig C N with ⟨_, _, hnone⟩ | ⟨_, i0, j0, hi0, hj0, hm0, h1, _, hhead⟩
  · rw [hnone i hi j hj] at hm
    exact absurd hm (by decide)
  · have hii : i0 = i := by
      rcases Nat.lt_trichotomy i0 i with hlt | heq | hgt
      · rw [hclean i0 hlt j0 hj0] at hm0
        exact absurd hm0 (by decide)
      · exact heq
      · rw [h1 i hgt j hj] at hm
        exact absurd hm (by decide)
    subst hii
    rw [hout] at hhead
    exact ⟨j0, failingLines_head Corig C cells i0 j0 hhead⟩

theorem oracleF_getLast (N : Nat) (Corig C : Grid) :
    (oracleF N Corig C).getLast?
      = some (if (oracleScanF N Corig C).test = 0 then Line.failed else Line.passed) := by
  simp [oracleF]

/-- With `mismatchF`.  The scan ends with `test = 1` when no cell mismatches and with `test = 0`
otherwise. -/
theorem oracleScanF_test (N : Nat) (Corig C : Grid) :
    ((oracleScanF N Corig C).test = 1 ↔
        ∀ i, i < N → ∀ j, j < N → mismatchF (Corig i j) (C i j) = false) ∧
    ((oracleScanF N Corig C).test = 0 ↔
        ∃ i, i < N ∧ ∃ j, j < N ∧ mismatchF (Corig i j) (C i j) = true) := by
  rcases oracleScanF_rows N Corig C N with ⟨ht, _, hclean⟩ | ⟨ht, i, j, hi, hj, hm, _⟩
  · have ht' : (oracleScanF N Corig C).test = 1 := ht
    refine ⟨⟨fun _ => hclean, fun _ => ht'⟩, ⟨fun h => ?_, ?_⟩⟩
    · rw [ht'] at h; exact absurd h (by decide)
    · rintro ⟨i, hi, j, hj, hm⟩
      rw [hclean i hi j hj] at hm
      exact absurd hm (by decide)
  · have ht' : (oracleScanF N Corig C).test = 0 := ht
    refine ⟨⟨fun h => ?_, fun h => ?_⟩, ⟨fun _ => ⟨i, hi, j, hj, hm⟩, fun _ => ht'⟩⟩
    · rw [ht'] at h; exact absurd h (by decide)
    · rw [h i hi j hj] at hm
      exact absurd hm (by decide)


/-! ## The correctness test with the subtraction in `float` -/

theorem oracleF_of_clean (N : Nat) (Corig C : Grid)
    (h : ∀ i, i < N → ∀ j, j < N → mismatchF (Corig i j) (C i j) = false) :
    (oracleScanF N Corig C).test = 1 ∧ oracleF N Corig C = [Line.passed] := by
  rcases oracleScanF_rows N Corig C N with ⟨ht, ho, _⟩ | ⟨_, i, j, hi, hj, hm, _⟩
  · have ht' : (oracleScanF N Corig C).test = 1 := ht
    have ho' : (oracleScanF N Corig C).out = [] := ho
    refine ⟨ht', ?_⟩
    simp [oracleF, ht', ho']
  · rw [h i hi j hj] at hm
    exact absurd hm (by decide)

/-- When the test of line 85 holds at one cell only, the output is the line
of that cell and `TEST FAILED`. -/
theorem oracleF_of_single (N : Nat) (Corig C : Grid) (i0 j0 : Nat) (hi0 : i0 < N)
    (hj0 : j0 < N)
    (hmis : ∀ i j, mismatchF (Corig i j) (C i j) = true ↔ i = i0 ∧ j = j0) :
    oracleF N Corig C = [Line.failing i0 j0 (Corig i0 j0) (C i0 j0), Line.failed] := by
  obtain ⟨cells, hout, hpw, hall, hfirst⟩ := oracleScanF_cells N Corig C
  have hmem : ∀ p ∈ cells, p = (i0, j0) := by
    intro p hp
    have := (hmis p.1 p.2).1 (hall p hp).2.2.1
    exact Prod.ext this.1 this.2
  obtain ⟨j, hj⟩ := hfirst i0 hi0 ⟨j0, hj0, (hmis i0 j0).2 ⟨rfl, rfl⟩⟩ (fun i' hi' j' _ => by
    have : ¬ (i' = i0 ∧ j' = j0) := by omega
    rw [← hmis] at this
    simpa using this)
  have hcells : cells = [(i0, j0)] := by
    cases cells with
    | nil => simp at hj
    | cons p rest =>
        have hp := hmem p (List.mem_cons_self _ _)
        subst hp
        cases rest with
        | nil => rfl
        | cons q rest' =>
            have hq := hmem q (by simp)
            subst hq
            have := (List.pairwise_cons.1 hpw).1 (i0, j0) (List.mem_cons_self _ _)
            simp at this
  have htest : (oracleScanF N Corig C).test = 0 :=
    (oracleScanF_test N _ _).2.2 ⟨i0, hi0, j0, hj0, (hmis i0 j0).2 ⟨rfl, rfl⟩⟩
  simp only [oracleF, hout, hcells, htest, failingLines]
  simp

/-- C8 (as stated, refuted): with `N = 1`, `Corig[0][0] = 0.5` and
`C[0][0] = -2^(-30)` the two values differ by more than `0.5`, the `float`
difference of line 85 is `0.5`, and the correctness test ends with `test = 1`
and prints `TEST PASSED`. -/
theorem oracleF_passes_beyond_tolerance :
    |constGrid (1 / 2) 0 0 - constGrid (-(1 / 1073741824)) 0 0| > 1 / 2 ∧
    subFloat (constGrid (1 / 2) 0 0) (constGrid (-(1 / 1073741824)) 0 0) = 1 / 2 ∧
    (oracleScanF 1 (constGrid (1 / 2)) (constGrid (-(1 / 1073741824)))).test = 1 ∧
    oracleF 1 (constGrid (1 / 2)) (constGrid (-(1 / 1073741824))) = [Line.passed] := by
  refine ⟨?_, ?_, ?_⟩
  · norm_num [constGrid, abs_of_pos]
  · exact roundFloat_half_plus
  · exact oracleF_of_clean 1 _ _ (fun i _ j _ => mismatchF_half)

/-- C8 (amended): the correctness test ends with `test = 1`, and its last
line is `TEST PASSED`, exactly when on every cell of `[0,N)×[0,N)` neither
`float` difference of line 85, `Corig[i][j] - C[i][j]` and
`C[i][j] - Corig[i][j]`, exceeds `0.5`; it ends with `test = 0`, and its last
line is `TEST FAILED`, exactly when one of them does on some cell.  When
`|Corig[i][j] - C[i][j]| ≤ 0.5` on every cell it prints `TEST PASSED`, and
when it prints `TEST FAILED` some cell has `|Corig[i][j] - C[i][j]| > 0.5`. -/
theorem oracleF_verdict (N : Nat) (Corig C : Grid) :
    ((oracleScanF N Corig C).test = 1 ↔
        ∀ i, i < N → ∀ j, j < N →
          subFloat (Corig i j) (C i j) ≤ 1 / 2 ∧ subFloat (C i j) (Corig i j) ≤ 1 / 2) ∧
    ((oracleF N Corig C).getLast? = some Line.passed ↔
        ∀ i, i < N → ∀ j, j < N →
          subFloat (Corig i j) (C i j) ≤ 1 / 2 ∧ subFloat (C i j) (Corig i j) ≤ 1 / 2) ∧
    ((oracleScanF N Corig C).test = 0 ↔
        ∃ i, i < N ∧ ∃ j, j < N ∧
          (subFloat (Corig i j) (C i j) > 1 / 2 ∨ subFloat (C i j) (Corig i j) > 1 / 2)) ∧
    ((oracleF N Corig C).getLast? = some Line.failed ↔
        ∃ i, i < N ∧ ∃ j, j < N ∧
          (subFloat (Corig i j) (C i j) > 1 / 2 ∨ subFloat (C i j) (Corig i j) > 1 / 2)) ∧
    ((∀ i, i < N → ∀ j, j < N → |Corig i j - C i j| ≤ 1 / 2) →
        (oracleF N Corig C).getLast? = some Line.passed) ∧
    ((oracleF N Corig C).getLast? = some Line.failed →
        ∃ i, i < N ∧ ∃ j, j < N ∧ |Corig i j - C i j| > 1 / 2) := by
  obtain ⟨h1, h0⟩ := oracleScanF_test N Corig C
  simp only [mismatchF_false_iff] at h1
  simp only [mismatchF_true_iff] at h0
  have h01 : (oracleScanF N Corig C).test = 0 ∨ (oracleScanF N Corig C).test = 1 := by
    rcases oracleScanF_rows N Corig C N with ⟨ht, _⟩ | ⟨ht, _⟩
    · exact Or.inr ht
    · exact Or.inl ht
  have hp : (oracleF N Corig C).getLast? = some Line.passed ↔
      (oracleScanF N Corig C).test = 1 := by
    rw [oracleF_getLast]
    rcases h01 with h | h <;> simp [h]
  have hf : (oracleF N Corig C).getLast? = some Line.failed ↔
      (oracleScanF N Corig C).test = 0 := by
    rw [oracleF_getLast]
    rcases h01 with h | h <;> simp [h]
  refine ⟨h1, hp.trans h1, h0, hf.trans h0, fun hall => ?_, fun hfail => ?_⟩
  · rw [hp, h1]
    intro i hi j hj
    exact (mismatchF_false_iff _ _).1 (mismatchF_of_abs_le _ _ (hall i hi j hj))
  · obtain ⟨i, hi, j, hj, hm⟩ := h0.1 (hf.1 hfail)
    refine ⟨i, hi, j, hj, ?_⟩
    by_contra hle
    have := (mismatchF_false_iff _ _).1 (mismatchF_of_abs_le _ _ (not_lt.1 hle))
    rcases hm with hm | hm
    · exact absurd hm (not_lt.2 this.1)
    · exact absurd hm (not_lt.2 this.2)

/-- C9 (as stated, refuted): with `N = 2`, `Corig[0][0] = 0.5`,
`C[0][0] = -2^(-30)`, `C[0][1] = 1` and every other value `0`, the cell
`(0, 0)` differs by more than `0.5` and is first in row-major order, and the
first line of the correctness test is the line of the cell `(0, 1)`. -/
theorem oracleF_first_line_skips_cell :
    |setCell (constGrid 0) 0 0 (1 / 2) 0 0
      - setCell (setCell (constGrid 0) 0 0 (-(1 / 1073741824))) 0 1 1 0 0| > 1 / 2 ∧
    oracleF 2 (setCell (constGrid 0) 0 0 (1 / 2))
        (setCell (setCell (constGrid 0) 0 0 (-(1 / 1073741824))) 0 1 1)
      = [Line.failing 0 1 0 1, Line.failed] := by
  refine ⟨by norm_num [constGrid, setCell, abs_of_pos], ?_⟩
  have hmis : ∀ i j, mismatchF (setCell (constGrid 0) 0 0 (1 / 2) i j)
      (setCell (setCell (constGrid 0) 0 0 (-(1 / 1073741824))) 0 1 1 i j) = true ↔
      i = 0 ∧ j = 1 := by
    intro i j
    by_cases h00 : i = 0 ∧ j = 0
    · obtain ⟨rfl, rfl⟩ := h00
      have : mismatchF (setCell (constGrid 0) 0 0 (1 / 2) 0 0)
          (setCell (setCell (constGrid 0) 0 0 (-(1 / 1073741824))) 0 1 1 0 0) = false :=
        mismatchF_half
      rw [this]
      decide
    · by_cases h01 : i = 0 ∧ j = 1
      · obtain ⟨rfl, rfl⟩ := h01
        have : mismatchF (setCell (constGrid 0) 0 0 (1 / 2) 0 1)
            (setCell (setCell (constGrid 0) 0 0 (-(1 / 1073741824))) 0 1 1 0 1) = true :=
          mismatchF_zero_one
        rw [this]
        decide
      · have e1 : setCell (constGrid 0) 0 0 (1 / 2) i j = 0 := by
          simp [setCell, constGrid, h00]
        have e2 : setCell (setCell (constGrid 0) 0 0 (-(1 / 1073741824))) 0 1 1 i j = 0 := by
          simp [setCell, constGrid, h00, h01]
        rw [e1, e2, mismatchF_zero_zero]
        simp [h01]
  have := oracleF_of_single 2 _ _ 0 1 (by decide) (by decide) hmis
  rw [this]
  simp [setCell, constGrid]

/-- C9 (amended): when the test of line 85, with its differences in `float`,
holds at some cell of `[0,N)×[0,N)`, the first line of the correctness test
is the `TEST FAILING` line of the cell `(i, j)` that comes first in row-major
order among the cells at which it holds, with `Corig[i][j]` and `C[i][j]` in
that order. -/
theorem oracleF_first_line (N : Nat) (Corig C : Grid)
    (h : ∃ i, i < N ∧ ∃ j, j < N ∧ mismatchF (Corig i j) (C i j) = true) :
    ∃ i j, i < N ∧ j < N ∧ mismatchF (Corig i j) (C i j) = true ∧
      (∀ i' j', i' < N → j' < N → mismatchF (Corig i' j') (C i' j') = true →
        i < i' ∨ (i = i' ∧ j ≤ j')) ∧
      (oracleF N Corig C).head? = some (Line.failing i j (Corig i j) (C i j)) := by
  rcases oracleScanF_rows N Corig C N with ⟨_, _, hclean⟩ | ⟨_, i, j, hi, hj, hm, h1, h2, hhead⟩
  · obtain ⟨i, hi, j, hj, hm⟩ := h
    rw [hclean i hi j hj] at hm
    exact absurd hm (by decide)
  · refine ⟨i, j, hi, hj, hm, fun i' j' hi' hj' hm' => ?_, ?_⟩
    · by_contra hcon
      by_cases hlt : i' < i
      · rw [h1 i' hlt j' hj'] at hm'
        exact absurd hm' (by decide)
      · have hii : i' = i := by omega
        subst hii
        rw [h2 j' (by omega)] at hm'
        exact absurd hm' (by decide)
    · have hhead' : (oracleScanF N Corig C).out.head?
          = some (Line.failing i j (Corig i j) (C i j)) := hhead
      exact head_append_of_head _ _ _ hhead'

theorem oracleF_first_line_witness :
    (∃ i, i < 2 ∧ ∃ j, j < 2 ∧ mismatchF (constGrid 0 i j) (constGrid 1 i j) = true) ∧
    ∃ i j, i < 2 ∧ j < 2 ∧ mismatchF (constGrid 0 i j) (constGrid 1 i j) = true ∧
      (∀ i' j', i' < 2 → j' < 2 → mismatchF (constGrid 0 i' j') (constGrid 1 i' j') = true →
        i < i' ∨ (i = i' ∧ j ≤ j')) ∧
      (oracleF 2 (constGrid 0) (constGrid 1)).head?
        = some (Line.failing i j (constGrid 0 i j) (constGrid 1 i j)) :=
  ⟨⟨0, by decide, 0, by decide, mismatchF_zero_one⟩,
    oracleF_first_line 2 (constGrid 0) (constGrid 1)
      ⟨0, by decide, 0, by decide, mismatchF_zero_one⟩⟩

/-- C20 (as stated, refuted): with `N = 2`, `Corig` all `0` and `C` zero
except `C[0][0] = 1` and `C[1][1] = 1`, the test of line 85 holds at the cell
`(1, 1)` of row `1`, whose values differ by more than `0.5`, and the
correctness test prints no line for row `1`: its output is the line for
`(0, 0)` and `TEST FAILED`. -/
theorem oracleF_misses_later_row :
    |constGrid 0 1 1 - setCell (setCell (constGrid 0) 0 0 1) 1 1 1 1 1| > 1 / 2 ∧
    mismatchF (constGrid 0 1 1) (setCell (setCell (constGrid 0) 0 0 1) 1 1 1 1 1) = true ∧
    oracleF 2 (constGrid 0) (setCell (setCell (constGrid 0) 0 0 1) 1 1 1)
      = [Line.failing 0 0 0 1, Line.failed] := by
  refine ⟨by norm_num [constGrid, setCell], mismatchF_zero_one, ?_⟩
  simp [oracleF, oracleScanF, forUp, List.range', oracleRowF, constGrid, setCell,
    mismatchF_zero_one, mismatchF_zero_zero]

/-- C20 (amended): the `TEST FAILING` lines of the correctness test are the
lines of a list of cells of `[0,N)×[0,N)` whose rows increase (so a row has
at most one line); at each of these cells the test of line 85, with its
differences in `float`, holds, and it holds at no cell of the same row with a
smaller column (so a row on which it holds nowhere has no line); and the
first row that has a cell at which it holds has a line, the first one. -/
theorem oracleF_lines_by_row (N : Nat) (Corig C : Grid) :
    ∃ cells : List (Nat × Nat),
      oracleF N Corig C = failingLines Corig C cells ++
        [if (oracleScanF N Corig C).test = 0 then Line.failed else Line.passed] ∧
      cells.Pairwise (fun p q => p.1 < q.1) ∧
      (∀ p ∈ cells, p.1 < N ∧ p.2 < N ∧ mismatchF (Corig p.1 p.2) (C p.1 p.2) = true ∧
        ∀ j', j' < p.2 → mismatchF (Corig p.1 j') (C p.1 j') = false) ∧
      (∀ i, i < N → (∃ j, j < N ∧ mismatchF (Corig i j) (C i j) = true) →
        (∀ i', i' < i → ∀ j', j' < N → mismatchF (Corig i' j') (C i' j') = false) →
        ∃ j, cells.head? = some (i, j)) := by
  obtain ⟨cells, hout, hpw, hall, hfirst⟩ := oracleScanF_cells N Corig C
  exact ⟨cells, by simp [oracleF, hout], hpw, hall, hfirst⟩


/-! ## The parallel loop with its shared counters -/

namespace Par

theorem step_shared_C (N W tileRow tileColumn : Nat) (A B : Grid) (t : Thread) (s : Shared)
    (C0 : Grid) (h : s.C = replay A B C0 s.log) :
    (step N W tileRow tileColumn A B t s).2.C
      = replay A B C0 (step N W tileRow tileColumn A B t s).2.log := by
  unfold step
  cases hpc : t.pc with
  | next =>
      cases hr : t.rest with
      | nil => simpa using h
      | cons k rest => simpa using h
  | acc =>
      simp only [replay, List.foldl_append, List.foldl_cons, List.foldl_nil]
      rw [h]
      rfl
  | _ => simpa using h

theorem stepWorld_shared_C (N W tileRow tileColumn : Nat) (A B : Grid) (w : World) (tid : Nat)
    (C0 : Grid) (h : w.shared.C = replay A B C0 w.shared.log) :
    (stepWorld N W tileRow tileColumn A B w tid).shared.C
      = replay A B C0 (stepWorld N W tileRow tileColumn A B w tid).shared.log := by
  unfold stepWorld
  cases w.threads.get? tid with
  | none => exact h
  | some t => exact step_shared_C N W tileRow tileColumn A B t w.shared C0 h

/-- In every run the array `C` is what the recorded executions of line 69,
applied in order, make of the array the run started with. -/
theorem run_shared_C (N W tileRow tileColumn : Nat) (A B : Grid) (C0 : Grid) :
    ∀ (sched : List Nat) (w : World), w.shared.C = replay A B C0 w.shared.log →
      (run N W tileRow tileColumn A B w sched).shared.C
        = replay A B C0 (run N W tileRow tileColumn A B w sched).shared.log := by
  intro sched
  induction sched with
  | nil => intro w h; exact h
  | cons tid sched ih =>
      intro w h
      exact ih _ (stepWorld_shared_C N W tileRow tileColumn A B w tid C0 h)

set_option maxRecDepth 100000 in
/-- A team of one thread that is given every `k`: the run records the cells
in the order of the sequential loops (`N = 4`, `W = 1`, tiles of 2×2). -/
theorem run_one_thread :
    ((run 4 1 2 2 (constGrid 1) (constGrid 1) (start [[0, 2]] (constGrid 0) 0)
        (List.replicate 82 0)).threads.all finished = true) ∧
    ((run 4 1 2 2 (constGrid 1) (constGrid 1) (start [[0, 2]] (constGrid 0) 0)
        (List.replicate 82 0)).shared.log).map (fun e => (e.1, e.2.1))
      = [(0, 0), (0, 2), (2, 0), (2, 2)] ∧
    tiledVisits 5 4 2 2 = some [(0, 0), (0, 2), (2, 0), (2, 2)] := by
  decide

set_option maxRecDepth 100000 in
/-- A team of one thread that is given every `k`, with tiles that differ in
the two directions and `W = 2` (`N = 5`, `tileRow = 3`, `tileColumn = 2`):
the run executes line 69 for the cells of the sequential loops, in their
order, four times each, with `(i, j)` in the order of the loops of lines
65-67. -/
theorem run_one_thread_tiles :
    ((run 5 2 3 2 (constGrid 1) (constGrid 1) (start [[0, 2, 4]] (constGrid 0) 0)
        (List.replicate 369 0)).threads.all finished = true) ∧
    (run 5 2 3 2 (constGrid 1) (constGrid 1) (start [[0, 2, 4]] (constGrid 0) 0)
        (List.replicate 369 0)).shared.log
      = ([(0, 0), (0, 1), (0, 3), (0, 4), (2, 0), (2, 1), (2, 3), (2, 4),
          (4, 0), (4, 1), (4, 3), (4, 4)] : List (Nat × Nat)).flatMap
          (fun p => [(p.1, p.2, 0, 0), (p.1, p.2, 0, 1), (p.1, p.2, 1, 0), (p.1, p.2, 1, 1)]) ∧
    tiledVisits 6 5 3 2
      = some [(0, 0), (0, 1), (0, 3), (0, 4), (2, 0), (2, 1), (2, 3), (2, 4),
          (4, 0), (4, 1), (4, 3), (4, 4)] := by
  decide

set_option maxRecDepth 100000 in
/-- The run of two threads with `N = 4`, `W = 1`, tiles of 2×2 (thread 0 has
`k = 0`, thread 1 has `k = 2`) under `raceSchedule`: both threads leave the
loop, and line 69 has been executed with these `(kk, ll, i, j)`. -/
theorem race_log :
    ((run 4 1 2 2 (constGrid 1) (constGrid 1) (start [[0], [2]] (constGrid 0) 0)
        raceSchedule).threads.all finished = true) ∧
    (run 4 1 2 2 (constGrid 1) (constGrid 1) (start [[0], [2]] (constGrid 0) 0)
        raceSchedule).shared.log
      = [(2, 0, 0, 0), (2, 0, 0, 0), (0, 2, 0, 0), (2, 3, 0, 0)] := by
  decide

theorem race_C (a b : Nat) :
    (run 4 1 2 2 (constGrid 1) (constGrid 1) (start [[0], [2]] (constGrid 0) 0)
        raceSchedule).shared.C a b
      = replay (constGrid 1) (constGrid 1) (constGrid 0)
          [(2, 0, 0, 0), (2, 0, 0, 0), (0, 2, 0, 0), (2, 3, 0, 0)] a b := by
  rw [run_shared_C 4 1 2 2 (constGrid 1) (constGrid 1) (constGrid 0) raceSchedule _ rfl,
    race_log.2]

set_option maxRecDepth 100000 in
/-- The program's sizes (`N = 4096`, `W = 32`, tiles of 8×8, 16 threads with
32 values of `k` each) under `raceStart`: threads 0 and 1 have both executed
line 69 for the cell `(256, 0)` with `(i, j) = (0, 0)`. -/
theorem race_log_4096 :
    (run 4096 32 8 8 (constGrid 1) (constGrid 1) (start (blocks 16 32 8) (constGrid 0) 0)
        raceStart).shared.log = [(256, 0, 0, 0), (256, 0, 0, 0)] := by
  decide

set_option maxRecDepth 100000 in
/-- The program's sizes under `indexSchedule`: the last execution of line 69,
by thread 0, has `j = 32`. -/
theorem index_log_4096 :
    ((run 4096 32 8 8 (constGrid 1) (constGrid 1) (start (blocks 16 32 8) (constGrid 0) 0)
        indexSchedule).shared.log).getLast? = some (256, 0, 0, 32) := by
  decide

end Par

/-- C4 (the code departs from the claim): with `N = 4`, `W = 1`, tiles of 2×2
and two threads (thread 0 has `k = 0`, thread 1 has `k = 2`), in the run
under `raceSchedule` both threads leave the parallel loop, and line 69 has
been executed twice for the cell `(2, 0)` with the same `(i, j) = (0, 0)`:
the list of the executions has a repetition.  With the program's sizes
(`N = 4096`, `W = 32`, tiles of 8×8, 16 threads) the first steps of the same
schedule execute line 69 twice for the cell `(256, 0)` with
`(i, j) = (0, 0)`. -/
theorem two_threads_visit_twice :
    ((Par.run 4 1 2 2 (constGrid 1) (constGrid 1) (Par.start [[0], [2]] (constGrid 0) 0)
        Par.raceSchedule).threads.all Par.finished = true) ∧
    ((Par.run 4 1 2 2 (constGrid 1) (constGrid 1) (Par.start [[0], [2]] (constGrid 0) 0)
        Par.raceSchedule).shared.log).count (2, 0, 0, 0) = 2 ∧
    ¬ ((Par.run 4 1 2 2 (constGrid 1) (constGrid 1) (Par.start [[0], [2]] (constGrid 0) 0)
        Par.raceSchedule).shared.log).Nodup ∧
    (Par.run 4096 32 8 8 (constGrid 1) (constGrid 1)
        (Par.start (Par.blocks 16 32 8) (constGrid 0) 0) Par.raceStart).shared.log
      = [(256, 0, 0, 0), (256, 0, 0, 0)] := by
  refine ⟨Par.race_log.1, ?_, ?_, Par.race_log_4096⟩
  · rw [Par.race_log.2]; decide
  · rw [Par.race_log.2]; decide

/-- C19 (as stated, refuted): in the same run of two threads (`N = 4`,
`W = 1`, tiles of 2×2, `A` and `B` all `1`, `C` all zero) the cell `(0, 0)`,
with `0 mod 2 ≠ 1`, is never visited and ends at `0`; the cell `(2, 3)`,
with `3 mod 2 = 1`, is visited and ends at `1`; and the visited cell `(2, 0)`
ends at `2`, not at its prior value plus the correlation sum, `0 + 1`.
And in `float` line 69 leaves a cell that holds `2^24` at `2^24` when it adds
the product `1 * 1`, not at `2^24 + 1`. -/
theorem two_threads_footprint :
    ((Par.run 4 1 2 2 (constGrid 1) (constGrid 1) (Par.start [[0], [2]] (constGrid 0) 0)
        Par.raceSchedule).threads.all Par.finished = true) ∧
    ((Par.run 4 1 2 2 (constGrid 1) (constGrid 1) (Par.start [[0], [2]] (constGrid 0) 0)
        Par.raceSchedule).shared.log).map (fun e => (e.1, e.2.1))
      = [(2, 0), (2, 0), (0, 2), (2, 3)] ∧
    (0 % 2 ≠ 2 - 1 ∧ 3 % 2 = 2 - 1) ∧
    (Par.run 4 1 2 2 (constGrid 1) (constGrid 1) (Par.start [[0], [2]] (constGrid 0) 0)
        Par.raceSchedule).shared.C 0 0 = 0 ∧
    (Par.run 4 1 2 2 (constGrid 1) (constGrid 1) (Par.start [[0], [2]] (constGrid 0) 0)
        Par.raceSchedule).shared.C 2 3 = 1 ∧
    (Par.run 4 1 2 2 (constGrid 1) (constGrid 1) (Par.start [[0], [2]] (constGrid 0) 0)
        Par.raceSchedule).shared.C 2 0 = 2 ∧
    constGrid 0 2 0 + corr 1 (constGrid 1) (constGrid 1) 2 0 = 1 ∧
    accFloat 16777216 1 1 = 16777216 ∧ (16777216 : ℚ) + 1 * 1 ≠ 16777216 := by
  refine ⟨Par.race_log.1, ?_, by decide, ?_, ?_, ?_, ?_, accFloat_two_pow_24, by norm_num⟩
  · rw [Par.race_log.2]; rfl
  · rw [Par.race_C]; norm_num [Par.replay, setCell, constGrid]
  · rw [Par.race_C]; norm_num [Par.replay, setCell, constGrid]
  · rw [Par.race_C]; norm_num [Par.replay, setCell, constGrid]
  · rw [corr_const_one]; norm_num [constGrid]

/-- C14 (the code departs from the claim): with the program's sizes
(`N = 4096`, `W = 32`, `A[4128][4128]`, tiles of 8×8, 16 threads with 32
values of `k` each), in the run under `indexSchedule` thread 0 passes the
test `j<W` with `j = 0` and executes line 69 after thread 1 has raised the
shared `j` to `32`: it reads `B[0][32]`, an index that is not in `[0, W)` and
that the check of `addProductChecked` refuses. -/
theorem two_threads_index_out_of_range :
    ((Par.run 4096 32 8 8 (constGrid 1) (constGrid 1)
        (Par.start (Par.blocks 16 32 8) (constGrid 0) 0) Par.indexSchedule).shared.log).getLast?
      = some (256, 0, 0, 32) ∧
    ¬ (32 < Config.W) ∧ Config.M = 4128 ∧
    addProductChecked 4096 32 4128 (constGrid 1) (constGrid 1) 256 0 0 32 (constGrid 0)
      = none := by
  refine ⟨Par.index_log_4096, by decide, by decide, ?_⟩
  simp [addProductChecked, readCell]


end ConvAll
